import Mathlib

/-!
# Verification of the Lookonchain feed-scraper bot pipeline

A shallow embedding of `src/main.py`: the fetch loop (`fetch_new_feeds`),
the AI transformer wrapper (`process_with_ai`), the Telegram publisher
(`send_to_telegram`, `notify_error`), and the run orchestrator (`main`),
together with the two persistent files (`last_feed_id.txt`,
`processed_hashes.txt`).

Python strings are modelled as `List Char` (one entry per code point, so
`len`/slicing agree with Python's `len`/`[:n]`).  External effects — HTTP
fetching plus HTML parsing, the OpenAI chat call, `json.loads`, and the
Telegram transport — are parameters (oracles) of the embedded functions; all
in-repository logic (branching, truncation, retries, filters, persistence)
is translated directly from the source.
-/

set_option maxHeartbeats 1600000
set_option maxRecDepth 2000

namespace Radar

/-- Python strings, one list entry per code point. -/
abbrev Str := List Char

/-- Python whitespace characters relevant to `str.strip()` / `str.split()`
(ASCII subset; the data handled by the bot is ASCII except for a few fixed
emoji / CJK constants, none of which are whitespace). -/
def isPySpace (c : Char) : Bool :=
  c = ' ' || c = '\t' || c = '\n' || c = '\r' || c = Char.ofNat 0x0B || c = Char.ofNat 0x0C

/-- `str.strip()`. -/
def pyStrip (s : Str) : Str :=
  ((s.dropWhile isPySpace).reverse.dropWhile isPySpace).reverse

/-- `str.lower()` (ASCII case folding; the non-ASCII constants in the source
have no case). -/
def pyLower (s : Str) : Str := s.map Char.toLower

/-- Python's `needle in hay` substring test. -/
def containsSub (hay needle : Str) : Bool :=
  match hay with
  | [] => needle.isPrefixOf ([] : Str)
  | _ :: t => needle.isPrefixOf hay || containsSub t needle

/-- Python slicing `s[:n]` where `n` may be negative (`s[:-k]` drops the last
`k` characters). -/
def pySlice (s : Str) (n : Int) : Str :=
  if 0 ≤ n then s.take n.toNat else s.take ((s.length : Int) + n).toNat

/-- `str.split()` helper: accumulate the current word (reversed). -/
def splitWsAux : Str → Str → List Str
  | [], acc => if acc = [] then [] else [acc.reverse]
  | c :: rest, acc =>
    if isPySpace c then
      if acc = [] then splitWsAux rest [] else acc.reverse :: splitWsAux rest []
    else splitWsAux rest (c :: acc)

/-- Python's `str.split()` (split on whitespace runs, no empty fields). -/
def pySplitWs (s : Str) : List Str := splitWsAux s []

/-- `' '.join(l)`. -/
def joinSpace : List Str → Str
  | [] => []
  | [x] => x
  | x :: xs => x ++ ' ' :: joinSpace xs

/-- The part of `s` before the first occurrence of `sep` (this is
`s.split(sep)[0]`, used by the source for code-fence handling). -/
def takeUntilSeq (sep : Str) : Str → Str
  | [] => []
  | c :: t => if sep.isPrefixOf (c :: t) then [] else c :: takeUntilSeq sep t

/-! ## Decimal printing / parsing

`save_last_processed_id` writes `str(n)`; `main` reads it back with `int`.
We embed `str` on naturals (`natToStr`) and the `int(...) if ... else 0`
fallback (`pyParseIntOr0`), and prove the round trip. -/

/-- The decimal digit character for `n < 10`. -/
def digitChar (n : Nat) : Char := Char.ofNat (48 + n)

/-- Fuelled most-significant-first decimal printer. -/
def natToStrAux : Nat → Nat → Str
  | 0, _ => []
  | fuel + 1, n =>
    if n < 10 then [digitChar n]
    else natToStrAux fuel (n / 10) ++ [digitChar (n % 10)]

/-- Python `str(n)` for a natural number. -/
def natToStr (n : Nat) : Str := natToStrAux (n + 1) n

def isDigitChar (c : Char) : Bool := 48 ≤ c.toNat && c.toNat ≤ 57

/-- Numeric value of an all-digits string. -/
def digitsVal (s : Str) : Nat := s.foldl (fun a c => a * 10 + (c.toNat - 48)) 0

/-- `int(s) if s else 0` under `try/except ValueError: 0` — the watermark
loader of `main` (restricted to unsigned decimals, the only values the
program itself ever writes). -/
def pyParseIntOr0 (s : Str) : Nat :=
  if s ≠ [] && s.all isDigitChar then digitsVal s else 0

theorem natToStrAux_stable : ∀ f₁ f₂ n, n < f₁ → n < f₂ →
    natToStrAux f₁ n = natToStrAux f₂ n := by
  intro f₁
  induction f₁ with
  | zero => intro f₂ n h; omega
  | succ f ih =>
    intro f₂ n h₁ h₂
    match f₂, h₂ with
    | f₂ + 1, h₂ =>
      by_cases h10 : n < 10
      · simp [natToStrAux, h10]
      · have hdiv : n / 10 < n := Nat.div_lt_self (by omega) (by omega)
        simp only [natToStrAux, h10, if_neg]
        rw [ih f₂ (n / 10) (by omega) (by omega)]

theorem natToStr_step (n : Nat) (h : ¬ n < 10) :
    natToStr n = natToStr (n / 10) ++ [digitChar (n % 10)] := by
  have hdiv : n / 10 < n := Nat.div_lt_self (by omega) (by omega)
  show natToStrAux (n + 1) n = _
  simp only [natToStrAux, h, if_neg]
  rw [natToStrAux_stable n (n / 10 + 1) (n / 10) (by omega) (by omega)]
  rfl

theorem digitChar_toNat {n : Nat} (h : n < 10) : (digitChar n).toNat = 48 + n := by
  interval_cases n <;> rfl

theorem digitChar_isDigit {n : Nat} (h : n < 10) : isDigitChar (digitChar n) = true := by
  interval_cases n <;> rfl

theorem digitsVal_append_digit (s : Str) (c : Char) :
    digitsVal (s ++ [c]) = digitsVal s * 10 + (c.toNat - 48) := by
  simp [digitsVal, List.foldl_append]

/-- `str(n)` is a nonempty all-digits string whose value is `n`. -/
theorem natToStr_spec (n : Nat) :
    digitsVal (natToStr n) = n ∧ (natToStr n).all isDigitChar = true ∧ natToStr n ≠ [] := by
  induction n using Nat.strong_induction_on with
  | _ n ih =>
    by_cases h : n < 10
    · have he : natToStr n = [digitChar n] := by simp [natToStr, natToStrAux, h]
      refine ⟨?_, ?_, by simp [he]⟩
      · simp [he, digitsVal, digitChar_toNat h]
      · simp [he, digitChar_isDigit h]
    · have hdiv : n / 10 < n := Nat.div_lt_self (by omega) (by omega)
      obtain ⟨hv, hd, hne⟩ := ih (n / 10) hdiv
      rw [natToStr_step n h]
      refine ⟨?_, ?_, by simp⟩
      · rw [digitsVal_append_digit, hv, digitChar_toNat (Nat.mod_lt n (by omega))]
        omega
      · simp only [List.all_append, hd, Bool.true_and, List.all_cons, List.all_nil,
          Bool.and_true]
        exact digitChar_isDigit (Nat.mod_lt n (by omega))

/-- Round trip: parsing back what `save_last_processed_id` wrote recovers the
same number. -/
theorem pyParseIntOr0_natToStr (n : Nat) : pyParseIntOr0 (natToStr n) = n := by
  obtain ⟨hv, hd, hne⟩ := natToStr_spec n
  simp [pyParseIntOr0, hne, hd, hv]

theorem digit_not_space {c : Char} (h : isDigitChar c = true) : isPySpace c = false := by
  simp only [isDigitChar, Bool.and_eq_true, decide_eq_true_eq] at h
  simp only [isPySpace, Bool.or_eq_false_iff, decide_eq_false_iff_not]
  refine ⟨⟨⟨⟨⟨?_, ?_⟩, ?_⟩, ?_⟩, ?_⟩, ?_⟩ <;>
    · intro hc; subst hc; revert h; decide

theorem dropWhile_eq_self_of_none {p : Char → Bool} {s : Str}
    (h : ∀ c ∈ s, p c = false) : s.dropWhile p = s := by
  cases s with
  | nil => rfl
  | cons c t => simp [List.dropWhile, h c (by simp)]

/-- `strip` leaves an all-digits string untouched. -/
theorem pyStrip_digits {s : Str} (h : s.all isDigitChar = true) : pyStrip s = s := by
  have hns : ∀ c ∈ s, isPySpace c = false := by
    intro c hc
    exact digit_not_space (by simpa using (List.all_eq_true.mp h c hc))
  unfold pyStrip
  rw [dropWhile_eq_self_of_none hns,
    dropWhile_eq_self_of_none (by intro c hc; exact hns c (by simpa using hc)),
    List.reverse_reverse]

/-- Combined: loading a watermark file the program itself wrote. -/
theorem load_roundtrip (n : Nat) : pyParseIntOr0 (pyStrip (natToStr n)) = n := by
  rw [pyStrip_digits (natToStr_spec n).2.1, pyParseIntOr0_natToStr]

/-! ## `fetch_new_feeds` (src/main.py lines 63–185)

The loop probes `https://www.lookonchain.com/feeds/{current_id}` for
consecutive ids starting at `last_id + 1`.  The HTTP request plus
BeautifulSoup extraction is the external world, modelled by
`pages : Nat → PageResult`:

* `PageResult.err` covers every branch that increments `consecutive_errors`
  and moves on — HTTP 404, a non-200 status, a page without an `<h1>`, a
  page whose fallback paragraph scan finds nothing, and a raised exception;
  all five branches of the source behave identically
  (`consecutive_errors += 1`, break when it reaches 5, `current_id += 1`,
  continue).
* `PageResult.page title timeText content` is a parsed page; the source's
  own `len(full_content) < 50` check is applied by the embedding.

The constants of the source: `max_new_feeds = 15`,
`max_consecutive_errors = 5`, `max_attempts = 50`.  The `attempts` counter
bounds the `while` loop, so the recursion below uses the remaining attempts
as structural fuel; the returned second component is the list of probed ids
(one per attempt, in order). -/

inductive PageResult where
  | err : PageResult
  | page (title timeText content : Str) : PageResult
deriving DecidableEq

/-- One fetched feed item (the dict appended by `fetch_new_feeds`; the `url`
field is the fixed pattern applied to `id` and is omitted). -/
structure Feed where
  id : Nat
  title : Str
  timeText : Str
  content : Str
deriving DecidableEq

/-- The fetch loop body.  Arguments: remaining attempts, `current_id`,
`consecutive_errors`, accumulated feeds, probed ids so far. -/
def fetchAux (pages : Nat → PageResult) :
    Nat → Nat → Nat → List Feed → List Nat → List Feed × List Nat
  | 0, _, _, acc, probed => (acc, probed)
  | rem + 1, currId, consec, acc, probed =>
    if 15 ≤ acc.length then (acc, probed)
    else
      match pages currId with
      | .err =>
        if 5 ≤ consec + 1 then (acc, probed ++ [currId])
        else fetchAux pages rem (currId + 1) (consec + 1) acc (probed ++ [currId])
      | .page t tm c =>
        if c.length < 50 then
          if 5 ≤ consec + 1 then (acc, probed ++ [currId])
          else fetchAux pages rem (currId + 1) (consec + 1) acc (probed ++ [currId])
        else
          fetchAux pages rem (currId + 1) 0 (acc ++ [⟨currId, t, tm, c⟩]) (probed ++ [currId])

/-- `fetch_new_feeds(last_id)`: returns the collected feeds and the probed
ids. -/
def fetch_new_feeds (last_id : Nat) (pages : Nat → PageResult) :
    List Feed × List Nat :=
  fetchAux pages 50 (last_id + 1) 0 [] []

/-- Loop invariant for `fetchAux`, proved in one induction: bounds on the
collected ids, sortedness, the 15-item cap, and the probe trace being a
consecutive id range. -/
theorem fetchAux_inv (pages : Nat → PageResult) :
    ∀ rem currId consec acc probed,
    (∀ f ∈ acc, f.id < currId) →
    List.Pairwise (fun a b : Feed => a.id < b.id) acc →
    acc.length ≤ 15 →
    (∀ f ∈ (fetchAux pages rem currId consec acc probed).1, f.id < currId + rem) ∧
    (∀ f ∈ (fetchAux pages rem currId consec acc probed).1, f ∈ acc ∨ currId ≤ f.id) ∧
    List.Pairwise (fun a b : Feed => a.id < b.id)
      (fetchAux pages rem currId consec acc probed).1 ∧
    (fetchAux pages rem currId consec acc probed).1.length ≤ 15 ∧
    (∃ k ≤ rem, (fetchAux pages rem currId consec acc probed).2
      = probed ++ List.range' currId k) := by
  intro rem
  induction rem with
  | zero =>
    intro currId consec acc probed hlt hpair hlen
    refine ⟨fun f hf => by have := hlt f hf; omega, fun f hf => Or.inl hf, hpair, hlen,
      ⟨0, le_refl _, by simp [fetchAux]⟩⟩
  | succ rem ih =>
    intro currId consec acc probed hlt hpair hlen
    show _ ∧ _ ∧ _ ∧ _ ∧ _
    by_cases hfull : 15 ≤ acc.length
    · rw [show fetchAux pages (rem + 1) currId consec acc probed = (acc, probed) by
        simp [fetchAux, hfull]]
      exact ⟨fun f hf => by have := hlt f hf; omega, fun f hf => Or.inl hf, hpair, hlen,
        ⟨0, by omega, by simp⟩⟩
    · have hstop : ∀ {res : List Feed × List Nat},
          res = (acc, probed ++ [currId]) →
          (∀ f ∈ res.1, f.id < currId + (rem + 1)) ∧
          (∀ f ∈ res.1, f ∈ acc ∨ currId ≤ f.id) ∧
          List.Pairwise (fun a b : Feed => a.id < b.id) res.1 ∧
          res.1.length ≤ 15 ∧
          (∃ k ≤ rem + 1, res.2 = probed ++ List.range' currId k) := by
        intro res hres
        subst hres
        exact ⟨fun f hf => by have := hlt f hf; omega, fun f hf => Or.inl hf, hpair, hlen,
          ⟨1, by omega, by simp [List.range']⟩⟩
      have hcont : ∀ consec',
          (∀ f ∈ (fetchAux pages rem (currId + 1) consec' acc (probed ++ [currId])).1,
            f.id < currId + (rem + 1)) ∧
          (∀ f ∈ (fetchAux pages rem (currId + 1) consec' acc (probed ++ [currId])).1,
            f ∈ acc ∨ currId ≤ f.id) ∧
          List.Pairwise (fun a b : Feed => a.id < b.id)
            (fetchAux pages rem (currId + 1) consec' acc (probed ++ [currId])).1 ∧
          (fetchAux pages rem (currId + 1) consec' acc (probed ++ [currId])).1.length ≤ 15 ∧
          (∃ k ≤ rem + 1, (fetchAux pages rem (currId + 1) consec' acc (probed ++ [currId])).2
            = probed ++ List.range' currId k) := by
        intro consec'
        obtain ⟨h1, h2, h3, h4, k, hk, hp⟩ :=
          ih (currId + 1) consec' acc (probed ++ [currId])
            (fun f hf => by have := hlt f hf; omega) hpair hlen
        refine ⟨fun f hf => by have := h1 f hf; omega,
          fun f hf => (h2 f hf).imp id (by omega), h3, h4, ⟨k + 1, by omega, ?_⟩⟩
        rw [hp, List.range'_succ]
        simp
      cases hp : pages currId with
      | err =>
        by_cases h5 : 5 ≤ consec + 1
        · exact hstop (by simp [fetchAux, hfull, hp, h5])
        · rw [show fetchAux pages (rem + 1) currId consec acc probed
              = fetchAux pages rem (currId + 1) (consec + 1) acc (probed ++ [currId]) by
            simp [fetchAux, hfull, hp, h5]]
          exact hcont (consec + 1)
      | page t tm c =>
        by_cases hshort : c.length < 50
        · by_cases h5 : 5 ≤ consec + 1
          · exact hstop (by simp [fetchAux, hfull, hp, hshort, h5])
          · rw [show fetchAux pages (rem + 1) currId consec acc probed
                = fetchAux pages rem (currId + 1) (consec + 1) acc (probed ++ [currId]) by
              simp [fetchAux, hfull, hp, hshort, h5]]
            exact hcont (consec + 1)
        · rw [show fetchAux pages (rem + 1) currId consec acc probed
              = fetchAux pages rem (currId + 1) 0 (acc ++ [⟨currId, t, tm, c⟩])
                  (probed ++ [currId]) by
            simp [fetchAux, hfull, hp, hshort]]
          obtain ⟨h1, h2, h3, h4, k, hk, hpr⟩ :=
            ih (currId + 1) 0 (acc ++ [⟨currId, t, tm, c⟩]) (probed ++ [currId])
              (by
                intro f hf
                rcases List.mem_append.mp hf with h | h
                · have := hlt f h; omega
                · simp at h; subst h; show currId < currId + 1; omega)
              (by
                rw [List.pairwise_append]
                exact ⟨hpair, List.pairwise_singleton _ _,
                  fun a ha b hb => by simp at hb; subst hb; exact hlt a ha⟩)
              (by simp; omega)
          refine ⟨fun f hf => by have := h1 f hf; omega, ?_, h3, h4, ⟨k + 1, by omega, ?_⟩⟩
          · intro f hf
            rcases h2 f hf with h | h
            · rcases List.mem_append.mp h with h' | h'
              · exact Or.inl h'
              · simp at h'; subst h'; exact Or.inr (le_refl _)
            · exact Or.inr (by omega)
          · rw [hpr, List.range'_succ]
            simp

/-- The fetch contract facts used throughout: strictly ascending ids, all
greater than the watermark, at most `last_id + 50`, at most 15 items, and a
probe trace consisting of at most 50 consecutive ids starting right above
the watermark. -/
theorem fetch_new_feeds_spec (last_id : Nat) (pages : Nat → PageResult) :
    (∀ f ∈ (fetch_new_feeds last_id pages).1, last_id < f.id) ∧
    (∀ f ∈ (fetch_new_feeds last_id pages).1, f.id ≤ last_id + 50) ∧
    List.Pairwise (fun a b : Feed => a.id < b.id) (fetch_new_feeds last_id pages).1 ∧
    (fetch_new_feeds last_id pages).1.length ≤ 15 ∧
    (∃ k ≤ 50, (fetch_new_feeds last_id pages).2 = List.range' (last_id + 1) k) := by
  obtain ⟨h1, h2, h3, h4, k, hk, hp⟩ :=
    fetchAux_inv pages 50 (last_id + 1) 0 [] [] (by simp) (by simp) (by simp)
  refine ⟨?_, ?_, h3, h4, ⟨k, hk, by simpa using hp⟩⟩
  · intro f hf
    rcases h2 f hf with h | h
    · simp at h
    · omega
  · intro f hf
    have := h1 f hf
    omega

/-- With every page failing, the loop gives up after exactly 5 consecutive
errors (5 probes). -/
theorem fetch_new_feeds_all_err (last_id : Nat) (pages : Nat → PageResult)
    (h : ∀ i, pages i = .err) :
    (fetch_new_feeds last_id pages).1 = [] ∧
    (fetch_new_feeds last_id pages).2.length = 5 := by
  simp [fetch_new_feeds, fetchAux, h]

/-- With every page good (content of at least 50 characters), the loop stops
as soon as 15 items are collected. -/
theorem fetchAux_all_good (pages : Nat → PageResult)
    (hg : ∀ i, ∃ t tm c, pages i = .page t tm c ∧ 50 ≤ c.length) :
    ∀ rem currId acc probed, acc.length ≤ 15 →
    (fetchAux pages rem currId 0 acc probed).1.length = min 15 (acc.length + rem) ∧
    (fetchAux pages rem currId 0 acc probed).2.length
      = probed.length + (min 15 (acc.length + rem) - acc.length) := by
  intro rem
  induction rem with
  | zero =>
    intro currId acc probed hlen
    constructor <;> simp [fetchAux] <;> omega
  | succ rem ih =>
    intro currId acc probed hlen
    by_cases hfull : 15 ≤ acc.length
    · have h15 : acc.length = 15 := by omega
      rw [show fetchAux pages (rem + 1) currId 0 acc probed = (acc, probed) by
        simp [fetchAux, hfull]]
      constructor <;> simp [h15] <;> omega
    · obtain ⟨t, tm, c, hp, hc⟩ := hg currId
      rw [show fetchAux pages (rem + 1) currId 0 acc probed
          = fetchAux pages rem (currId + 1) 0 (acc ++ [⟨currId, t, tm, c⟩])
              (probed ++ [currId]) by
        simp [fetchAux, hfull, hp]; omega]
      obtain ⟨h1, h2⟩ := ih (currId + 1) (acc ++ [⟨currId, t, tm, c⟩]) (probed ++ [currId])
        (by simp; omega)
      constructor
      · rw [h1]; simp; omega
      · rw [h2]; simp; omega

/-! ## `process_with_ai` (src/main.py lines 187–309)

External collaborators:

* the OpenAI chat call, `api : Str → Nat → ApiOutcome` — given the content
  actually embedded in the prompt and the attempt number it either raises
  (`raiseExc`: network error, timeout, …, the `except Exception` at line
  304) or returns the model's raw reply string;
* `json.loads`, `jp : Str → JsonParseRes` — either `json.JSONDecodeError`
  (line 300: `return None`) or a parsed value.  A parsed value is either
  not a dict (`nonObj`; then `data.get` raises `AttributeError`, which is
  caught by the outer `except Exception` and counts as a failed attempt) or
  a dict with optional `text` / `sentiment` fields; a non-string field makes
  the subsequent `.strip()` raise, again caught by the outer handler.

Everything else — the 2000-character input truncation, the code-fence
stripping, the `SKIP` / minimum-length checks, the 400-character output
truncation, the 3-attempt loop with `time.sleep(2 ** attempt)` backoff — is
source logic and is embedded directly.  The embedding returns the result
together with a trace (content sent, attempts consumed, sleeps performed),
so the theorems can speak about the call discipline. -/

inductive ApiOutcome where
  | raiseExc : ApiOutcome
  | respond (raw : Str) : ApiOutcome

inductive JField where
  | absent : JField
  | jstr (s : Str) : JField
  | nonStr : JField

inductive JsonVal where
  | nonObj : JsonVal
  | obj (text sentiment : JField) : JsonVal

inductive JsonParseRes where
  | decodeErr : JsonParseRes
  | val (v : JsonVal) : JsonParseRes

/-- `dict.get(key, default)` followed by the requirement that `.strip()`
does not raise: `absent` yields the default, `jstr` the value. -/
def JField.getD (f : JField) (dflt : Str) : Str :=
  match f with
  | .absent => dflt
  | .jstr s => s
  | .nonStr => dflt

/-- The transformer's output dict `{'text': ..., 'sentiment': ...}`. -/
structure Post where
  text : Str
  sentiment : Str
deriving DecidableEq

/-- Outcome of the body of one `for attempt in range(3)` iteration. -/
inductive AttemptStep where
  | retry : AttemptStep
  | done (r : Option Post) : AttemptStep

/-- The code-fence handling of lines 276–282: if the reply starts with
three backticks, keep `reply.split(fence)[1]`, drop a leading `json`
tag, and strip. -/
def defenceRaw (fence jsonTag : Str) (r : Str) : Str :=
  if fence.isPrefixOf r then
    let inner := takeUntilSeq fence (r.drop 3)
    pyStrip (if jsonTag.isPrefixOf inner then inner.drop 4 else inner)
  else r

/-- The three-backticks string (written via code points to keep the source
plain ASCII). -/
def fenceStr : Str := [Char.ofNat 0x60, Char.ofNat 0x60, Char.ofNat 0x60]

def jsonTagStr : Str := ['j', 's', 'o', 'n']

def skipStr : Str := ['S', 'K', 'I', 'P']

def neutralStr : Str := ['N', 'e', 'u', 't', 'r', 'a', 'l']

/-- Lines 289–298: the `SKIP` / minimum-length gate and the 400-character
output truncation applied to the stripped field values. -/
def postCheck (text sentiment : Str) : AttemptStep :=
  if text = skipStr ∨ text.length < 20 then .done none
  else .done (some ⟨if 400 < text.length then text.take 397 ++ ['.', '.', '.'] else text,
    sentiment⟩)

/-- Lines 273–302: strip the reply, handle code fences, `json.loads`,
extract and validate the fields. -/
def attemptStep (jp : Str → JsonParseRes) (raw : Str) : AttemptStep :=
  match jp (defenceRaw fenceStr jsonTagStr (pyStrip raw)) with
  | .decodeErr => .done none
  | .val .nonObj => .retry
  | .val (.obj tf sf) =>
    match tf, sf with
    | .nonStr, _ => .retry
    | _, .nonStr => .retry
    | tf, sf => postCheck (pyStrip (tf.getD [])) (pyStrip (sf.getD neutralStr))

/-- The `for attempt in range(3)` loop; returns the result, the number of
attempts consumed, and the `time.sleep(2 ** attempt)` durations performed
(in order). -/
def aiAttemptLoop (jp : Str → JsonParseRes) (oracle : Nat → ApiOutcome) :
    List Nat → Option Post × Nat × List Nat
  | [] => (none, 0, [])
  | a :: rest =>
    match oracle a with
    | .raiseExc =>
      let r := aiAttemptLoop jp oracle rest
      (r.1, r.2.1 + 1, (if a < 2 then [2 ^ a] else []) ++ r.2.2)
    | .respond raw =>
      match attemptStep jp raw with
      | .retry =>
        let r := aiAttemptLoop jp oracle rest
        (r.1, r.2.1 + 1, (if a < 2 then [2 ^ a] else []) ++ r.2.2)
      | .done res => (res, 1, [])

/-- Execution trace of one `process_with_ai` call. -/
structure AiTrace where
  result : Option Post
  contentSent : Str
  attempts : Nat
  sleeps : List Nat

/-- `process_with_ai(content, feed_title)`.  The feed title only decorates
the prompt and does not influence control flow, mirroring the source. -/
def process_with_ai (content _feedTitle : Str) (jp : Str → JsonParseRes)
    (api : Str → Nat → ApiOutcome) : AiTrace :=
  let contentUsed := if 2000 < content.length then content.take 2000 else content
  let r := aiAttemptLoop jp (api contentUsed) [0, 1, 2]
  { result := r.1, contentSent := contentUsed, attempts := r.2.1, sleeps := r.2.2 }

theorem postCheck_bounds (text sentiment : Str) (p : Post)
    (h : postCheck text sentiment = .done (some p)) :
    20 ≤ p.text.length ∧ p.text.length ≤ 400 := by
  unfold postCheck at h
  split at h
  · simp at h
  · rename_i hcond
    rw [not_or, not_lt] at hcond
    obtain ⟨hskip, hlen⟩ := hcond
    simp only [AttemptStep.done.injEq, Option.some.injEq] at h
    subst h
    by_cases h4 : 400 < text.length <;> simp [h4] <;> omega

theorem attemptStep_done_bounds (jp : Str → JsonParseRes) (raw : Str) (p : Post)
    (h : attemptStep jp raw = .done (some p)) :
    20 ≤ p.text.length ∧ p.text.length ≤ 400 := by
  unfold attemptStep at h
  cases hjp : jp (defenceRaw fenceStr jsonTagStr (pyStrip raw)) with
  | decodeErr => rw [hjp] at h; simp at h
  | val v =>
    rw [hjp] at h
    cases v with
    | nonObj => simp at h
    | obj tf sf =>
      cases tf with
      | nonStr => simp at h
      | absent =>
        cases sf with
        | nonStr => simp at h
        | absent => exact postCheck_bounds _ _ p h
        | jstr ss => exact postCheck_bounds _ _ p h
      | jstr ts =>
        cases sf with
        | nonStr => simp at h
        | absent => exact postCheck_bounds _ _ p h
        | jstr ss => exact postCheck_bounds _ _ p h

/-- The per-call facts of claim C7: truncated prompt content, at most three
attempts, exponential-backoff sleep pattern, never an undersized result. -/
theorem aiAttemptLoop_cases (jp : Str → JsonParseRes) (oracle : Nat → ApiOutcome) :
    (aiAttemptLoop jp oracle [0, 1, 2]).2.1 ≤ 3 ∧
    (aiAttemptLoop jp oracle [0, 1, 2]).2.2 <+: [1, 2] ∧
    (∀ p, (aiAttemptLoop jp oracle [0, 1, 2]).1 = some p →
      20 ≤ p.text.length ∧ p.text.length ≤ 400) := by
  have step : ∀ raw p, attemptStep jp raw = .done (some p) →
      20 ≤ p.text.length ∧ p.text.length ≤ 400 := attemptStep_done_bounds jp
  cases h0 : oracle 0 with
  | raiseExc =>
    cases h1 : oracle 1 with
    | raiseExc =>
      cases h2 : oracle 2 with
      | raiseExc => simp [aiAttemptLoop, h0, h1, h2]
      | respond raw2 =>
        cases h2s : attemptStep jp raw2 with
        | retry => simp [aiAttemptLoop, h0, h1, h2, h2s]
        | done res =>
          simp only [aiAttemptLoop, h0, h1, h2, h2s]
          refine ⟨by omega, by simp, ?_⟩
          intro p hp
          exact step raw2 p (hp ▸ h2s)
    | respond raw1 =>
      cases h1s : attemptStep jp raw1 with
      | retry =>
        cases h2 : oracle 2 with
        | raiseExc => simp [aiAttemptLoop, h0, h1, h1s, h2]
        | respond raw2 =>
          cases h2s : attemptStep jp raw2 with
          | retry => simp [aiAttemptLoop, h0, h1, h1s, h2, h2s]
          | done res =>
            simp only [aiAttemptLoop, h0, h1, h1s, h2, h2s]
            refine ⟨by omega, by simp, ?_⟩
            intro p hp
            exact step raw2 p (hp ▸ h2s)
      | done res =>
        simp only [aiAttemptLoop, h0, h1, h1s]
        refine ⟨by omega, by simp, ?_⟩
        intro p hp
        exact step raw1 p (hp ▸ h1s)
  | respond raw0 =>
    cases h0s : attemptStep jp raw0 with
    | retry =>
      cases h1 : oracle 1 with
      | raiseExc =>
        cases h2 : oracle 2 with
        | raiseExc => simp [aiAttemptLoop, h0, h0s, h1, h2]
        | respond raw2 =>
          cases h2s : attemptStep jp raw2 with
          | retry => simp [aiAttemptLoop, h0, h0s, h1, h2, h2s]
          | done res =>
            simp only [aiAttemptLoop, h0, h0s, h1, h2, h2s]
            refine ⟨by omega, by simp, ?_⟩
            intro p hp
            exact step raw2 p (hp ▸ h2s)
      | respond raw1 =>
        cases h1s : attemptStep jp raw1 with
        | retry =>
          cases h2 : oracle 2 with
          | raiseExc => simp [aiAttemptLoop, h0, h0s, h1, h1s, h2]
          | respond raw2 =>
            cases h2s : attemptStep jp raw2 with
            | retry => simp [aiAttemptLoop, h0, h0s, h1, h1s, h2, h2s]
            | done res =>
              simp only [aiAttemptLoop, h0, h0s, h1, h1s, h2, h2s]
              refine ⟨by omega, by simp, ?_⟩
              intro p hp
              exact step raw2 p (hp ▸ h2s)
        | done res =>
          simp only [aiAttemptLoop, h0, h0s, h1, h1s]
          refine ⟨by omega, by simp, ?_⟩
          intro p hp
          exact step raw1 p (hp ▸ h1s)
    | done res =>
      simp only [aiAttemptLoop, h0, h0s]
      refine ⟨by omega, by simp, ?_⟩
      intro p hp
      exact step raw0 p (hp ▸ h0s)

/-! ## Telegram formatting and publishing (src/main.py lines 311–444)

`get_emoji_for_sentiment`, `get_hashtags_from_title`, `send_to_telegram`
and `notify_error`.  The runtime configuration (lines 18–21) is a record:
`TARGET_CHAT_ID` plus the optional `ADMIN_CHAT_ID` environment variable,
which `os.getenv('ADMIN_CHAT_ID', TARGET_CHAT_ID)` defaults to the target
chat.  The Telegram HTTP POST is the external transport oracle
`Nat → TgOutcome` (per attempt): status 200, a non-200 status, or a raised
exception — the latter two both make the loop try again (the source sleeps
only in the exception branch; sleeping does not affect any claim). -/

structure Config where
  targetChatId : Str
  adminChatIdEnv : Option Str
deriving DecidableEq

/-- Line 21: `ADMIN_CHAT_ID = os.getenv('ADMIN_CHAT_ID', TARGET_CHAT_ID)`. -/
def adminChatId (cfg : Config) : Str := cfg.adminChatIdEnv.getD cfg.targetChatId

inductive TgOutcome where
  | ok200 : TgOutcome
  | badStatus : TgOutcome
  | exc : TgOutcome

/-- The `for attempt in range(3)` send loop of lines 420–437: success on the
first 200 status, `False` after three failures; non-200 and exceptions are
both swallowed. -/
def tgAttemptLoop (transport : Nat → TgOutcome) : List Nat → Bool
  | [] => false
  | a :: rest =>
    match transport a with
    | .ok200 => true
    | .badStatus => tgAttemptLoop transport rest
    | .exc => tgAttemptLoop transport rest

/-- `'⚠️'` (two code points: U+26A0 U+FE0F). -/
def emojiWarn : Str := [Char.ofNat 0x26A0, Char.ofNat 0xFE0F]

/-- `'📊'`. -/
def emojiChart : Str := [Char.ofNat 0x1F4CA]

/-- `'🚀'`. -/
def emojiRocket : Str := [Char.ofNat 0x1F680]

/-- `'📰'`. -/
def emojiNews : Str := [Char.ofNat 0x1F4F0]

/-- `get_emoji_for_sentiment` (lines 311–323). -/
def get_emoji_for_sentiment (sentiment : Str) : Str :=
  let sl := pyLower sentiment
  if containsSub sl ("strong negative").data then emojiWarn
  else if containsSub sl ("negative").data then emojiChart
  else if containsSub sl ("strong positive").data then emojiRocket
  else if containsSub sl ("positive").data then emojiNews
  else emojiNews

/-- `str.endswith` (used for the `'sol'` suffix check). -/
def pyEndsWith (s suffixArg : Str) : Bool := suffixArg.isSuffixOf s

/-- The `hashtags` list built by lines 329–362 of
`get_hashtags_from_title`, before the empty-list default. -/
def rawHashtagList (title : Str) : List Str :=
  let tl := pyLower title
  let hBTC := containsSub tl ("bitcoin").data || containsSub tl ("btc").data
  let hETH := containsSub tl ("ethereum").data || containsSub tl ("eth").data
  let hSOL := containsSub tl ("solana").data || containsSub tl (" sol ").data
    || pyEndsWith tl ("sol").data
  let hasMajor := hBTC || hETH || hSOL
  let memeHit := [("doge").data, ("shib").data, ("pepe").data, ("penguin").data,
    ("bonk").data, ("floki").data, ("meme").data].any (containsSub tl ·)
  let nftHit := [("nft").data, ("opensea").data, ("blur").data, ("nifty").data].any
    (containsSub tl ·)
  let defiHit := [("defi").data, ("staking").data, ("liquidity").data, ("aave").data,
    ("uniswap").data, ("compound").data, ("yield").data].any (containsSub tl ·)
  let altHit := [("altcoin").data, ("token").data, ("coin").data].any (containsSub tl ·)
  let macroHit := [("fed").data, ("fomc").data, ("powell").data, ("interest rate").data,
    ("forex").data, ("global").data, ("dollar").data, ("treasury").data].any
    (containsSub tl ·)
  let whaleHit := [("whale").data, ("million").data, ("billion").data,
    ("accumulated").data, ("transferred").data].any (containsSub tl ·)
  let l1 : List Str := (if hBTC then [("#BTC").data] else [])
    ++ (if hETH then [("#ETH").data] else [])
    ++ (if hSOL then [("#SOL").data] else [])
  let l2 := l1 ++ (if memeHit then [("#Memecoins").data] else [])
  let l3 := l2 ++ (if nftHit then [("#NFT").data] else [])
  let l4 := l3 ++ (if defiHit then [("#DeFi").data] else [])
  let l5 := l4 ++ (if !hasMajor && altHit then [("#Altcoins").data] else [])
  let l6 := l5 ++ (if macroHit then [("#Markets").data] else [])
  l6 ++ (if whaleHit && !l6.contains (("#Memecoins").data) && l6.length < 3
    then [("#Whales").data] else [])

/-- Lines 364–365: `if not hashtags: hashtags.append('#Markets')`. -/
def hashtagList (title : Str) : List Str :=
  if rawHashtagList title = [] then [("#Markets").data] else rawHashtagList title

/-- `get_hashtags_from_title` (lines 325–367), returning
`' '.join(hashtags[:3])`. -/
def get_hashtags_from_title (title : Str) : Str :=
  joinSpace ((hashtagList title).take 3)

/-- `"\n\n"`. -/
def nl2 : Str := ['\n', '\n']

/-- `"..."`. -/
def dots3 : Str := ['.', '.', '.']

/-- The attribution/context footer `"\n\nContext: " + sentiment` that every
assembled message carries (lines 389–399). -/
def msgFooter (sentiment : Str) : Str := ("\n\nContext: ").data ++ sentiment

/-- Message header for the current title value and hashtags (lines 400–402
and 410–412): built the same way in the assembly and in both truncation
branches. -/
def msgHeader (hashtags : Str) (emoji : Str) : Option Str → Str
  | some t =>
    if hashtags ≠ [] then hashtags ++ nl2 ++ emoji ++ ' ' :: t ++ nl2
    else emoji ++ ' ' :: t ++ nl2
  | none =>
    if hashtags ≠ [] then hashtags ++ nl2 ++ emoji ++ [' ']
    else emoji ++ [' ']

/-- Line 417: the final hard cap applied to every outgoing message. -/
def finalClamp (m : Str) : Str :=
  if 4096 < m.length then m.take 4090 ++ dots3 else m

/-- `feed_title` truthiness normalisation: Python `None` and `''` behave
identically in every use of `feed_title` in `send_to_telegram` (all are
guarded by `if feed_title`), so both map to `none`. -/
def normTitleOpt : Option Str → Option Str
  | some t => if t = [] then none else some t
  | none => none

/-- Line 380: `get_hashtags_from_title(feed_title) if feed_title else ''`. -/
def hashtagsOpt : Option Str → Str
  | some t => get_hashtags_from_title t
  | none => []

/-- Lines 382–384: clamp the title to 200 characters plus an ellipsis. -/
def clampTitle200 : Option Str → Option Str
  | some t => some (if 200 < t.length then t.take 200 ++ dots3 else t)
  | none => none

/-- Line 409: `feed_title[:100] + "..." if feed_title else ""`. -/
def clampTitle100 : Option Str → Option Str
  | some t => some (t.take 100 ++ dots3)
  | none => none

/-- Lines 398–415: the length check and the two truncation branches, over
the already-computed hashtags `H`, emoji `E`, clamped title `t1`, footer
`F` and analysis text. -/
def truncBody (H E : Str) (t1 : Option Str) (F text : Str) : Str :=
  if (msgHeader H E t1 ++ text ++ F).length ≤ 4096 then msgHeader H E t1 ++ text ++ F
  else
    if 100 < (4096 - (msgHeader H E t1).length - F.length - 3 : Int) then
      msgHeader H E t1
        ++ (pySlice text (4096 - (msgHeader H E t1).length - F.length - 3 : Int) ++ dots3)
        ++ F
    else
      msgHeader H E (clampTitle100 t1)
        ++ (pySlice text
              (4096 - (msgHeader H E (clampTitle100 t1)).length - F.length - 3 : Int)
            ++ dots3)
        ++ F

/-- The non-error message assembly of lines 376–415.  `titleOpt` is the
`feed_title` argument. -/
def assembleMsg (post : Post) (titleOpt : Option Str) : Str :=
  truncBody (hashtagsOpt (normTitleOpt titleOpt))
    (get_emoji_for_sentiment post.sentiment)
    (clampTitle200 (normTitleOpt titleOpt))
    (msgFooter post.sentiment)
    post.text

/-- The payload of one `send_to_telegram` call: either an error string
(`is_error=True`) or an AI analysis dict plus the optional feed title. -/
inductive TgPayload where
  | errorText (msg : Str) : TgPayload
  | postMsg (post : Post) (feedTitle : Option Str) : TgPayload

/-- Result of one `send_to_telegram` call: the chat targeted, the message
text posted, and the returned boolean. -/
structure TgResult where
  chatId : Str
  message : Str
  delivered : Bool
deriving DecidableEq

/-- `send_to_telegram` (lines 369–437). -/
def send_to_telegram (cfg : Config) (payload : TgPayload)
    (transport : Nat → TgOutcome) : TgResult :=
  let chat := match payload with
    | .errorText _ => adminChatId cfg
    | .postMsg _ _ => cfg.targetChatId
  let message := match payload with
    | .errorText m => m
    | .postMsg post titleOpt => assembleMsg post titleOpt
  { chatId := chat
    message := finalClamp message
    delivered := tgAttemptLoop transport [0, 1, 2] }

/-- `notify_error` (lines 439–444): prefix the 🚨 banner and send with
`is_error=True`.  The surrounding `try/except` swallows any exception; in
the embedding `send_to_telegram` is total over every transport outcome
(including raised exceptions, `TgOutcome.exc`), so the catch never fires. -/
def notify_error (cfg : Config) (errorMsg : Str) (transport : Nat → TgOutcome) :
    TgResult :=
  send_to_telegram cfg
    (.errorText ([Char.ofNat 0x1F6A8] ++ (" BOT ERROR\n\n").data ++ errorMsg)) transport

/-! ## The run orchestrator `main` (src/main.py lines 446–572)

Persistent state: the contents of `last_feed_id.txt` (a string; `""` stands
for a missing file, exactly what `get_last_processed_id` returns then) and
the lines of `processed_hashes.txt`.  The source reads the hash file into a
set and appends to both the set and the file in lockstep
(`save_processed_hash` + `processed_hashes.add`), so a single list serves
as both.

Oracles of one run: the page oracle for `fetch_new_feeds`, a per-feed-index
AI oracle pair (`api`, `jp`) for `process_with_ai`, and a per-feed-index
transport oracle for `send_to_telegram`.

The run result records, besides the final state, the fetched feeds, each
publish attempt `(feed id, returned bool)` in order, and the successfully
published items — these are what the cross-run claims quantify over. -/

/-- The two persistent files. -/
structure PersistState where
  lastIdFile : Str
  hashesFile : List Str
deriving DecidableEq

/-- External world of one run. -/
structure RunOracles where
  pages : Nat → PageResult
  api : Nat → Str → Nat → ApiOutcome
  jp : Str → JsonParseRes
  tg : Nat → Nat → TgOutcome

/-- A successfully published item, as observed by the cross-run claims. -/
structure PubRec where
  id : Nat
  title : Str
  content : Str
  message : Str
deriving DecidableEq

/-- Mutable state of the `for i, feed in enumerate(...)` loop. -/
structure LoopSt where
  hashes : List Str
  maxp : Nat
  pubAttempts : List (Nat × Bool)
  published : List PubRec
deriving DecidableEq

/-- `MAX_FEEDS_PER_RUN = 12` (line 23). -/
def MAX_FEEDS_PER_RUN : Nat := 12

/-- The hardcoded first-run baseline id (line 459). -/
def FIRST_RUN_TEST_ID : Nat := 42194

/-- The noise filter of lines 496–523: keyword list checked against the
lower-cased title plus first sentence, the `「` character checked against
the raw combined text, and the leading-word `whale` check. -/
def isNoiseFeed (feed : Feed) : Bool :=
  let titleText := feed.title
  let firstSentence := if feed.content = [] then [] else feed.content.takeWhile (· ≠ '.')
  let combined := titleText ++ ' ' :: firstSentence
  let combinedLower := pyLower combined
  let noiseKeywords : List Str := [("whale trader").data, ("a whale").data,
    ("the whale").data, ("on-chain whale").data, ("ultimate shorter").data,
    ("antminer").data, [Char.ofNat 0x300C]]
  let hasNoiseKeyword := noiseKeywords.any (containsSub combinedLower ·)
  let hasSpecialChar := containsSub combined [Char.ofNat 0x300C]
  let firstWord := match pySplitWs (pyStrip combined) with
    | [] => []
    | w :: _ => pyLower w
  hasNoiseKeyword || hasSpecialChar || (firstWord = ("whale").data)

/-- Loop body for one feed (lines 477–560).  The source computes
`feed_id_str = str(feed['id'])` once; here `natToStr feed.id` is written
inline.  On an accepted item the ledger write (line 547) precedes the
publish attempt, exactly as in the source. -/
def processFeed (cfg : Config) (or : RunOracles) (idx : Nat) (feed : Feed)
    (ls : LoopSt) : LoopSt :=
  if ls.hashes.contains (natToStr feed.id) then
    { ls with maxp := max ls.maxp feed.id }
  else if containsSub (pyLower feed.title) (("meme coin").data) then
    { ls with hashes := ls.hashes ++ [natToStr feed.id], maxp := max ls.maxp feed.id }
  else if isNoiseFeed feed then
    { ls with hashes := ls.hashes ++ [natToStr feed.id], maxp := max ls.maxp feed.id }
  else
    match (process_with_ai feed.content feed.title or.jp (or.api idx)).result with
    | none => { ls with maxp := max ls.maxp feed.id }
    | some post =>
      { hashes := ls.hashes ++ [natToStr feed.id],
        maxp := max ls.maxp feed.id,
        pubAttempts := ls.pubAttempts ++ [(feed.id,
          (send_to_telegram cfg (.postMsg post (some feed.title)) (or.tg idx)).delivered)],
        published := if (send_to_telegram cfg (.postMsg post (some feed.title))
              (or.tg idx)).delivered then
            ls.published ++ [⟨feed.id, feed.title, feed.content,
              (send_to_telegram cfg (.postMsg post (some feed.title)) (or.tg idx)).message⟩]
          else ls.published }

/-- The loop over `new_feeds[:MAX_FEEDS_PER_RUN]`. -/
def processLoop (cfg : Config) (or : RunOracles) :
    List Feed → Nat → LoopSt → LoopSt
  | [], _, ls => ls
  | f :: rest, idx, ls => processLoop cfg or rest (idx + 1) (processFeed cfg or idx f ls)

/-- Observable result of one invocation of `main`. -/
structure RunRes where
  state : PersistState
  fetched : List Feed
  pubAttempts : List (Nat × Bool)
  published : List PubRec
  firstRun : Bool
deriving DecidableEq

/-- `main()` (lines 446–565).  Returns the new persistent state and the
run's observable events. -/
def mainRun (cfg : Config) (st : PersistState) (or : RunOracles) : RunRes :=
  let lastIdStr := pyStrip st.lastIdFile
  let lastId := pyParseIntOr0 lastIdStr
  if lastId = 0 then
    { state := { lastIdFile := natToStr FIRST_RUN_TEST_ID, hashesFile := st.hashesFile },
      fetched := [], pubAttempts := [], published := [], firstRun := true }
  else
    let feeds := (fetch_new_feeds lastId or.pages).1
    if feeds = [] then
      { state := st, fetched := feeds, pubAttempts := [], published := [],
        firstRun := false }
    else
      let ls := processLoop cfg or (feeds.take MAX_FEEDS_PER_RUN) 0
        ⟨st.hashesFile, lastId, [], []⟩
      let newLastFile := if lastId < ls.maxp then natToStr ls.maxp else st.lastIdFile
      { state := { lastIdFile := newLastFile, hashesFile := ls.hashes },
        fetched := feeds,
        pubAttempts := ls.pubAttempts,
        published := ls.published,
        firstRun := false }

/-- A sequence of scheduler invocations threading the persistent state. -/
def runSeq (cfg : Config) : PersistState → List RunOracles → List RunRes
  | _, [] => []
  | st, o :: rest =>
    let r := mainRun cfg st o
    r :: runSeq cfg r.state rest

/-- The watermark value a run starts from (what line 452 computes). -/
def wmOf (st : PersistState) : Nat := pyParseIntOr0 (pyStrip st.lastIdFile)

/-- All items published over a sequence of runs, in order. -/
def allPublished (cfg : Config) (st : PersistState) (ors : List RunOracles) :
    List PubRec :=
  (runSeq cfg st ors).foldr (fun r acc => r.published ++ acc) []

/-! ### Loop invariants for `processLoop` -/

/-- Every branch of the loop body advances the local max-processed tracker
to the feed's id. -/
theorem processFeed_maxp (cfg : Config) (or : RunOracles) (idx : Nat) (feed : Feed)
    (ls : LoopSt) : (processFeed cfg or idx feed ls).maxp = max ls.maxp feed.id := by
  unfold processFeed
  split_ifs <;> try rfl
  cases (process_with_ai feed.content feed.title or.jp (or.api idx)).result <;> rfl

/-- The loop body only ever appends to the hash ledger. -/
theorem processFeed_hashes_mono (cfg : Config) (or : RunOracles) (idx : Nat)
    (feed : Feed) (ls : LoopSt) {x : Str} (hx : x ∈ ls.hashes) :
    x ∈ (processFeed cfg or idx feed ls).hashes := by
  unfold processFeed
  split_ifs <;> try simp [hx]
  cases (process_with_ai feed.content feed.title or.jp (or.api idx)).result <;> simp [hx]

/-- Publish attempts recorded by the loop body: an attempt is only appended
after the feed's id has been written to the ledger and the tracker has been
advanced to it. -/
theorem processFeed_attempts (cfg : Config) (or : RunOracles) (idx : Nat)
    (feed : Feed) (ls : LoopSt) {pb : Nat × Bool}
    (hpb : pb ∈ (processFeed cfg or idx feed ls).pubAttempts) :
    pb ∈ ls.pubAttempts ∨
    (pb.1 = feed.id ∧ natToStr pb.1 ∈ (processFeed cfg or idx feed ls).hashes) := by
  unfold processFeed at hpb ⊢
  split_ifs at hpb ⊢ <;> try exact Or.inl hpb
  revert hpb
  cases hai : (process_with_ai feed.content feed.title or.jp (or.api idx)).result with
  | none => intro hpb; exact Or.inl hpb
  | some post =>
    intro hpb
    replace hpb : pb ∈ ls.pubAttempts ++ [(feed.id,
        (send_to_telegram cfg (.postMsg post (some feed.title)) (or.tg idx)).delivered)] :=
      hpb
    simp only [List.mem_append, List.mem_singleton] at hpb
    rcases hpb with h | h
    · exact Or.inl h
    · subst h
      exact Or.inr ⟨rfl, by simp⟩

/-- Published records added by the loop body: only on a successful publish
of the current feed. -/
theorem processFeed_published (cfg : Config) (or : RunOracles) (idx : Nat)
    (feed : Feed) (ls : LoopSt) {p : PubRec}
    (hp : p ∈ (processFeed cfg or idx feed ls).published) :
    p ∈ ls.published ∨ p.id = feed.id := by
  unfold processFeed at hp
  split_ifs at hp <;> try exact Or.inl hp
  revert hp
  cases hai : (process_with_ai feed.content feed.title or.jp (or.api idx)).result with
  | none => intro hp; exact Or.inl hp
  | some post =>
    intro hp
    replace hp : p ∈ (if (send_to_telegram cfg (.postMsg post (some feed.title))
          (or.tg idx)).delivered then
        ls.published ++ [⟨feed.id, feed.title, feed.content,
          (send_to_telegram cfg (.postMsg post (some feed.title)) (or.tg idx)).message⟩]
      else ls.published) := hp
    split at hp
    · simp only [List.mem_append, List.mem_singleton] at hp
      rcases hp with h | h
      · exact Or.inl h
      · subst h; exact Or.inr rfl
    · exact Or.inl hp

/-- The tracker after the loop is the fold of `max` over the processed ids. -/
theorem processLoop_maxp (cfg : Config) (or : RunOracles) :
    ∀ (feeds : List Feed) (idx : Nat) (ls : LoopSt),
    (processLoop cfg or feeds idx ls).maxp
      = feeds.foldl (fun m f => max m f.id) ls.maxp := by
  intro feeds
  induction feeds with
  | nil => intro idx ls; rfl
  | cons f rest ih =>
    intro idx ls
    show (processLoop cfg or rest (idx + 1) (processFeed cfg or idx f ls)).maxp = _
    rw [ih, processFeed_maxp]
    rfl

/-- Ledger entries survive the whole loop. -/
theorem processLoop_hashes_mono (cfg : Config) (or : RunOracles) :
    ∀ (feeds : List Feed) (idx : Nat) (ls : LoopSt) {x : Str}, x ∈ ls.hashes →
    x ∈ (processLoop cfg or feeds idx ls).hashes := by
  intro feeds
  induction feeds with
  | nil => intro idx ls x hx; exact hx
  | cons f rest ih =>
    intro idx ls x hx
    exact ih (idx + 1) _ (processFeed_hashes_mono cfg or idx f ls hx)

/-- The tracker never decreases along the loop. -/
theorem processLoop_maxp_le (cfg : Config) (or : RunOracles) (feeds : List Feed)
    (idx : Nat) (ls : LoopSt) : ls.maxp ≤ (processLoop cfg or feeds idx ls).maxp := by
  rw [processLoop_maxp]
  induction feeds generalizing ls with
  | nil => exact le_refl _
  | cons f rest ih =>
    calc ls.maxp ≤ max ls.maxp f.id := le_max_left _ _
    _ ≤ _ := by
        have := ih { ls with maxp := max ls.maxp f.id }
        simpa using this

/-- Invariant: every recorded publish attempt is for an id above `lo`, is in
the ledger, and is below the tracker. -/
theorem processLoop_attempts (cfg : Config) (or : RunOracles) (lo : Nat) :
    ∀ (feeds : List Feed) (idx : Nat) (ls : LoopSt),
    (∀ f ∈ feeds, lo < f.id) →
    (∀ pb ∈ ls.pubAttempts,
      natToStr pb.1 ∈ ls.hashes ∧ pb.1 ≤ ls.maxp ∧ lo < pb.1) →
    ∀ pb ∈ (processLoop cfg or feeds idx ls).pubAttempts,
      natToStr pb.1 ∈ (processLoop cfg or feeds idx ls).hashes ∧
      pb.1 ≤ (processLoop cfg or feeds idx ls).maxp ∧ lo < pb.1 := by
  intro feeds
  induction feeds with
  | nil => intro idx ls _ hinv pb hpb; exact hinv pb hpb
  | cons f rest ih =>
    intro idx ls hfeeds hinv pb hpb
    refine ih (idx + 1) (processFeed cfg or idx f ls)
      (fun g hg => hfeeds g (List.mem_cons_of_mem _ hg)) ?_ pb hpb
    intro pb' hpb'
    rcases processFeed_attempts cfg or idx f ls hpb' with h | ⟨hid, hmem⟩
    · obtain ⟨hh, hm, hl⟩ := hinv pb' h
      exact ⟨processFeed_hashes_mono cfg or idx f ls hh,
        by rw [processFeed_maxp]; omega, hl⟩
    · refine ⟨hmem, ?_, ?_⟩
      · rw [processFeed_maxp, hid]; omega
      · rw [hid]; exact hfeeds f (List.mem_cons_self _ _)

/-- Invariant: published ids are strictly increasing, above `lo`, and below
the tracker. -/
theorem processLoop_pub (cfg : Config) (or : RunOracles) (lo : Nat) :
    ∀ (feeds : List Feed) (idx : Nat) (ls : LoopSt),
    List.Pairwise (fun a b : Feed => a.id < b.id) feeds →
    (∀ f ∈ feeds, ls.maxp < f.id) →
    (∀ f ∈ feeds, lo < f.id) →
    (∀ p ∈ ls.published, p.id ≤ ls.maxp) →
    List.Pairwise (fun a b : PubRec => a.id < b.id) ls.published →
    (∀ p ∈ ls.published, lo < p.id) →
    (∀ p ∈ (processLoop cfg or feeds idx ls).published,
      p.id ≤ (processLoop cfg or feeds idx ls).maxp) ∧
    List.Pairwise (fun a b : PubRec => a.id < b.id)
      (processLoop cfg or feeds idx ls).published ∧
    (∀ p ∈ (processLoop cfg or feeds idx ls).published, lo < p.id) := by
  intro feeds
  induction feeds with
  | nil => intro idx ls _ _ _ h1 h2 h3; exact ⟨h1, h2, h3⟩
  | cons f rest ih =>
    intro idx ls hpair hgt hlo h1 h2 h3
    have hmaxp : (processFeed cfg or idx f ls).maxp = max ls.maxp f.id :=
      processFeed_maxp cfg or idx f ls
    have hstep_le : ∀ p ∈ (processFeed cfg or idx f ls).published,
        p.id ≤ (processFeed cfg or idx f ls).maxp := by
      intro p hp
      rcases processFeed_published cfg or idx f ls hp with h | h
      · have := h1 p h; rw [hmaxp]; omega
      · rw [hmaxp, h]; omega
    have hstep_lo : ∀ p ∈ (processFeed cfg or idx f ls).published, lo < p.id := by
      intro p hp
      rcases processFeed_published cfg or idx f ls hp with h | h
      · exact h3 p h
      · rw [h]; exact hlo f (List.mem_cons_self _ _)
    have hstep_pair : List.Pairwise (fun a b : PubRec => a.id < b.id)
        (processFeed cfg or idx f ls).published := by
      have hf : ∀ p ∈ ls.published, p.id < f.id := by
        intro p hp
        have := h1 p hp
        have := hgt f (List.mem_cons_self _ _)
        omega
      unfold processFeed
      split_ifs <;> try exact h2
      cases (process_with_ai f.content f.title or.jp (or.api idx)).result with
      | none => exact h2
      | some post =>
        simp only
        split
        · rw [List.pairwise_append]
          exact ⟨h2, List.pairwise_singleton _ _,
            fun a ha b hb => by simp at hb; subst hb; exact hf a ha⟩
        · exact h2
    exact ih (idx + 1) (processFeed cfg or idx f ls)
      (hpair.of_cons)
      (by
        intro g hg
        rw [hmaxp]
        have h1g := hgt g (List.mem_cons_of_mem _ hg)
        have h2g := List.rel_of_pairwise_cons hpair hg
        omega)
      (fun g hg => hlo g (List.mem_cons_of_mem _ hg))
      hstep_le hstep_pair hstep_lo

/-! ### Run-level lemmas for `mainRun` -/

/-- The loop state produced by the processing phase of a run (abbreviation
for stating the characterization lemma). -/
def loopStOf (cfg : Config) (st : PersistState) (or : RunOracles) : LoopSt :=
  processLoop cfg or ((fetch_new_feeds (wmOf st) or.pages).1.take MAX_FEEDS_PER_RUN) 0
    ⟨st.hashesFile, wmOf st, [], []⟩

/-- The watermark file contents after the processing branch (line 562–563:
written only when the tracker advanced). -/
def savedLastIdFile (cfg : Config) (st : PersistState) (or : RunOracles) : Str :=
  if wmOf st < (loopStOf cfg st or).maxp then natToStr (loopStOf cfg st or).maxp
  else st.lastIdFile

/-- `mainRun` takes exactly one of three shapes: the first-run branch, the
no-new-feeds branch, or the processing branch. -/
theorem mainRun_char (cfg : Config) (st : PersistState) (or : RunOracles) :
    (wmOf st = 0 ∧ mainRun cfg st or =
      { state := { lastIdFile := natToStr FIRST_RUN_TEST_ID, hashesFile := st.hashesFile },
        fetched := [], pubAttempts := [], published := [], firstRun := true }) ∨
    (wmOf st ≠ 0 ∧ (fetch_new_feeds (wmOf st) or.pages).1 = [] ∧ mainRun cfg st or =
      { state := st, fetched := (fetch_new_feeds (wmOf st) or.pages).1,
        pubAttempts := [], published := [], firstRun := false }) ∨
    (wmOf st ≠ 0 ∧ (fetch_new_feeds (wmOf st) or.pages).1 ≠ [] ∧ mainRun cfg st or =
      { state := { lastIdFile := savedLastIdFile cfg st or,
                   hashesFile := (loopStOf cfg st or).hashes },
        fetched := (fetch_new_feeds (wmOf st) or.pages).1,
        pubAttempts := (loopStOf cfg st or).pubAttempts,
        published := (loopStOf cfg st or).published,
        firstRun := false }) := by
  have hwm : pyParseIntOr0 (pyStrip st.lastIdFile) = wmOf st := rfl
  by_cases h0 : wmOf st = 0
  · refine Or.inl ⟨h0, ?_⟩
    simp only [mainRun, hwm, if_pos h0]
  · by_cases hfe : (fetch_new_feeds (wmOf st) or.pages).1 = []
    · refine Or.inr (Or.inl ⟨h0, hfe, ?_⟩)
      simp only [mainRun, hwm, if_neg h0, hfe]
      simp
    · refine Or.inr (Or.inr ⟨h0, hfe, ?_⟩)
      simp only [mainRun, hwm, if_neg h0, if_neg hfe]
      rfl

/-- Folding `max` over a list is the maximum of the seed and the fold from
zero. -/
theorem foldl_max_eq (l : List Nat) : ∀ i : Nat,
    l.foldl max i = max i (l.foldr max 0) := by
  induction l with
  | nil => intro i; simp
  | cons a t ih =>
    intro i
    show t.foldl max (max i a) = _
    rw [ih]
    simp [Nat.max_assoc]

theorem le_foldr_max {l : List Nat} {x : Nat} (hx : x ∈ l) : x ≤ l.foldr max 0 := by
  induction l with
  | nil => simp at hx
  | cons a t ih =>
    rcases List.mem_cons.mp hx with h | h
    · subst h; simp
    · exact le_trans (ih h) (by simp)

theorem foldr_max_lt {l : List Nat} {b : Nat} (h : ∀ x ∈ l, x < b) (hb : 0 < b) :
    l.foldr max 0 < b := by
  induction l with
  | nil => simpa
  | cons a t ih =>
    have := h a (List.mem_cons_self _ _)
    have := ih (fun x hx => h x (List.mem_cons_of_mem _ hx))
    simp only [List.foldr_cons]
    omega

/-- The watermark loaded by the next run is never below the one loaded by
the current run. -/
theorem mainRun_wm_mono (cfg : Config) (st : PersistState) (or : RunOracles) :
    wmOf st ≤ wmOf (mainRun cfg st or).state := by
  rcases mainRun_char cfg st or with ⟨h0, he⟩ | ⟨h0, hfe, he⟩ | ⟨h0, hfe, he⟩
  · rw [he, h0]
    exact Nat.zero_le _
  · rw [he]
  · rw [he]
    show wmOf st ≤ pyParseIntOr0 (pyStrip (savedLastIdFile cfg st or))
    unfold savedLastIdFile
    split_ifs with hlt
    · rw [load_roundtrip]
      omega
    · exact le_refl _

/-- The processing-branch watermark: the final tracker value is the fold of
`max` over the first `MAX_FEEDS_PER_RUN` fetched ids, seeded with the
loaded watermark. -/
theorem loopStOf_maxp (cfg : Config) (st : PersistState) (or : RunOracles) :
    (loopStOf cfg st or).maxp
      = (((fetch_new_feeds (wmOf st) or.pages).1.take MAX_FEEDS_PER_RUN).map
          (·.id)).foldl max (wmOf st) := by
  unfold loopStOf
  rw [processLoop_maxp]
  generalize ((fetch_new_feeds (wmOf st) or.pages).1.take MAX_FEEDS_PER_RUN) = l
  induction l generalizing st with
  | nil => rfl
  | cons f t ih =>
    show t.foldl _ (max (wmOf st) f.id) = (t.map (·.id)).foldl max (max (wmOf st) f.id)
    clear ih
    generalize max (wmOf st) f.id = i
    induction t generalizing i with
    | nil => rfl
    | cons g u ihu => exact ihu (max i g.id)

/-- Every other-than-first run: each published record's id lies strictly
above the loaded watermark and at most at the saved watermark; published
ids are strictly increasing; the same bounds hold for publish attempts,
whose ids are moreover in the ledger afterwards. -/
theorem mainRun_events (cfg : Config) (st : PersistState) (or : RunOracles) :
    (∀ p ∈ (mainRun cfg st or).published,
      wmOf st < p.id ∧ p.id ≤ wmOf (mainRun cfg st or).state) ∧
    List.Pairwise (fun a b : PubRec => a.id < b.id) (mainRun cfg st or).published ∧
    (∀ pb ∈ (mainRun cfg st or).pubAttempts,
      natToStr pb.1 ∈ (mainRun cfg st or).state.hashesFile ∧
      wmOf st < pb.1 ∧ pb.1 ≤ wmOf (mainRun cfg st or).state) := by
  rcases mainRun_char cfg st or with ⟨h0, he⟩ | ⟨h0, hfe, he⟩ | ⟨h0, hfe, he⟩
  · rw [he]; simp
  · rw [he]; simp [hfe]
  · obtain ⟨hgt, hle, hpairF, hlen, -⟩ := fetch_new_feeds_spec (wmOf st) or.pages
    have htake : ∀ f ∈ (fetch_new_feeds (wmOf st) or.pages).1.take MAX_FEEDS_PER_RUN,
        wmOf st < f.id := fun f hf => hgt f (List.take_subset _ _ hf)
    have hpairT : List.Pairwise (fun a b : Feed => a.id < b.id)
        ((fetch_new_feeds (wmOf st) or.pages).1.take MAX_FEEDS_PER_RUN) :=
      hpairF.sublist (List.take_sublist _ _)
    have hwm_end : ∀ x, x ≤ (loopStOf cfg st or).maxp →
        x ≤ wmOf (mainRun cfg st or).state := by
      intro x hx
      rw [he]
      show x ≤ pyParseIntOr0 (pyStrip (savedLastIdFile cfg st or))
      unfold savedLastIdFile
      split_ifs with hlt
      · rw [load_roundtrip]; omega
      · have hini : wmOf st = pyParseIntOr0 (pyStrip st.lastIdFile) := rfl
        omega
    obtain ⟨hp_le, hp_pair, hp_lo⟩ :=
      processLoop_pub cfg or (wmOf st)
        ((fetch_new_feeds (wmOf st) or.pages).1.take MAX_FEEDS_PER_RUN) 0
        ⟨st.hashesFile, wmOf st, [], []⟩
        hpairT htake htake (by simp) (by simp) (by simp)
    have hatt :=
      processLoop_attempts cfg or (wmOf st)
        ((fetch_new_feeds (wmOf st) or.pages).1.take MAX_FEEDS_PER_RUN) 0
        ⟨st.hashesFile, wmOf st, [], []⟩
        htake (by simp)
    have hproj_pub : (mainRun cfg st or).published = (loopStOf cfg st or).published := by
      rw [he]
    have hproj_att : (mainRun cfg st or).pubAttempts
        = (loopStOf cfg st or).pubAttempts := by
      rw [he]
    have hproj_hash : (mainRun cfg st or).state.hashesFile
        = (loopStOf cfg st or).hashes := by
      rw [he]
    refine ⟨?_, ?_, ?_⟩
    · intro p hp
      rw [hproj_pub] at hp
      exact ⟨hp_lo p hp, hwm_end _ (hp_le p hp)⟩
    · rw [hproj_pub]
      exact hp_pair
    · intro pb hpb
      rw [hproj_att] at hpb
      obtain ⟨hh, hm, hl⟩ := hatt pb hpb
      rw [hproj_hash]
      exact ⟨hh, hl, hwm_end _ hm⟩

/-! ## Concrete fixtures

Small closed instances of the oracles, used by the witness and
counterexample theorems. -/

/-- A 50-character page body (the minimum the fetch loop accepts). -/
def cGood : Str := List.replicate 50 'a'

/-- A one-character page title that trips none of the filters. -/
def tGood : Str := ['t']

/-- Every page parses with an acceptable body. -/
def goodPages : Nat → PageResult := fun _ => .page tGood [] cGood

/-- Every page fails. -/
def errPages : Nat → PageResult := fun _ => .err

/-- Only feed 101 exists. -/
def pagesOne : Nat → PageResult :=
  fun i => if i = 101 then .page tGood [] cGood else .err

/-- Feeds 101 and 102 exist, with identical bodies. -/
def pagesTwo : Nat → PageResult :=
  fun i => if i = 101 ∨ i = 102 then .page tGood [] cGood else .err

/-- A raw model reply; its content is only a key for `jp0`. -/
def rawGood : Str := ['J']

/-- A 20-character analysis text (the minimum `process_with_ai` accepts). -/
def tB : Str := List.replicate 20 'b'

/-- `json.loads` behaviour: `rawGood` parses to
`{'text': tB, 'sentiment': 'Neutral'}`; anything else fails to decode. -/
def jp0 : Str → JsonParseRes :=
  fun s => if s = rawGood then .val (.obj (.jstr tB) (.jstr neutralStr)) else .decodeErr

/-- The model always answers `rawGood`. -/
def apiOK : Nat → Str → Nat → ApiOutcome := fun _ _ _ => .respond rawGood

/-- The model call always raises. -/
def apiErr : Nat → Str → Nat → ApiOutcome := fun _ _ _ => .raiseExc

/-- Telegram always accepts. -/
def tgOK : Nat → Nat → TgOutcome := fun _ _ => .ok200

/-- Telegram always raises. -/
def tgFail : Nat → Nat → TgOutcome := fun _ _ => .exc

/-- A configuration with a distinct admin chat. -/
def cfg0 : Config := ⟨['T'], some ['A']⟩

/-- A configuration with `ADMIN_CHAT_ID` unset. -/
def cfgDefault : Config := ⟨['T'], none⟩

/-- Watermark 100, empty ledger. -/
def st100 : PersistState := ⟨natToStr 100, []⟩

/-- Never ran: missing watermark file, empty ledger. -/
def st0 : PersistState := ⟨[], []⟩

/-- Feeds 101/102 available, AI succeeds, Telegram accepts. -/
def orBoth : RunOracles := ⟨pagesTwo, apiOK, jp0, tgOK⟩

/-- Feed 101 available, AI succeeds, Telegram always fails. -/
def orFail : RunOracles := ⟨pagesOne, apiOK, jp0, tgFail⟩

/-- Feed 101 available, AI declines (every call raises), Telegram accepts. -/
def orDecl : RunOracles := ⟨pagesOne, apiErr, jp0, tgOK⟩

/-- Endless good pages, AI declines. -/
def orGood : RunOracles := ⟨goodPages, apiErr, jp0, tgOK⟩

/-! ## Claim C5 — fetch contract -/

/-- C5 (counterexample): the claim says `fetch_new_feeds` returns its items
ordered newest-first.  With a source holding feeds 101 and 102 above
watermark 100, the returned order is `[101, 102]` — oldest first — which is
not sorted newest-first. -/
theorem c5_fetch_counterexample :
    ((fetch_new_feeds 100 pagesTwo).1.map (·.id)) = [101, 102] ∧
    ¬ List.Pairwise (fun a b : Nat => b < a)
      ((fetch_new_feeds 100 pagesTwo).1.map (·.id)) := by
  constructor
  · decide
  · intro h
    rw [show ((fetch_new_feeds 100 pagesTwo).1.map (·.id)) = [101, 102] by decide] at h
    have := List.rel_of_pairwise_cons h (List.mem_singleton.mpr rfl)
    omega

/-- C5 (amended): `fetch_new_feeds(watermark)` returns a finite sequence
ordered **oldest-first** (strictly increasing ids), of length at most the
fetch cap of 15 items, containing no item with `id ≤ watermark`. -/
theorem c5_fetch_amended (last_id : Nat) (pages : Nat → PageResult) :
    List.Pairwise (fun a b : Feed => a.id < b.id) (fetch_new_feeds last_id pages).1 ∧
    (fetch_new_feeds last_id pages).1.length ≤ 15 ∧
    (∀ f ∈ (fetch_new_feeds last_id pages).1, last_id < f.id) := by
  obtain ⟨h1, h2, h3, h4, h5⟩ := fetch_new_feeds_spec last_id pages
  exact ⟨h3, h4, h1⟩

/-! ## Claim C10 — fetch loop termination and bounds -/

/-- C10: the fetch loop terminates on every input (it is a fold over at
most 50 attempts): it probes a run of consecutive ids starting right above
the watermark, at most 50 of them; it stops after 5 consecutive failures
(with every page failing it probes exactly 5 ids) and stops once 15 items
are collected (with every page good it probes exactly 15 ids); and it
returns at most 15 items with strictly increasing ids. -/
theorem c10_fetch_termination (last_id : Nat) (pages : Nat → PageResult) :
    (fetch_new_feeds last_id pages).2.length ≤ 50 ∧
    (∃ k ≤ 50, (fetch_new_feeds last_id pages).2 = List.range' (last_id + 1) k) ∧
    (fetch_new_feeds last_id pages).1.length ≤ 15 ∧
    List.Pairwise (fun a b : Feed => a.id < b.id) (fetch_new_feeds last_id pages).1 ∧
    ((∀ i, pages i = .err) →
      (fetch_new_feeds last_id pages).1 = [] ∧
      (fetch_new_feeds last_id pages).2.length = 5) ∧
    ((∀ i, ∃ t tm c, pages i = .page t tm c ∧ 50 ≤ c.length) →
      (fetch_new_feeds last_id pages).1.length = 15 ∧
      (fetch_new_feeds last_id pages).2.length = 15) := by
  obtain ⟨h1, h2, h3, h4, k, hk, hp⟩ := fetch_new_feeds_spec last_id pages
  refine ⟨by rw [hp]; simp [hk], ⟨k, hk, hp⟩, h4, h3, fetch_new_feeds_all_err last_id pages,
    ?_⟩
  intro hg
  obtain ⟨hl, hpr⟩ := fetchAux_all_good pages hg 50 (last_id + 1) [] [] (by simp)
  exact ⟨by simpa using hl, by simpa using hpr⟩

/-- C10 (witness): concrete instances — an all-failing source stops after 5
probes with no items; an all-good source stops with 15 items. -/
theorem c10_fetch_termination_witness :
    ((fetch_new_feeds 100 errPages).1 = [] ∧
      (fetch_new_feeds 100 errPages).2.length = 5) ∧
    ((fetch_new_feeds 100 goodPages).1.length = 15 ∧
      (fetch_new_feeds 100 goodPages).2.length = 15) :=
  ⟨(c10_fetch_termination 100 errPages).2.2.2.2.1 (fun _ => rfl),
    (c10_fetch_termination 100 goodPages).2.2.2.2.2
      (fun _ => ⟨tGood, [], cGood, rfl, by decide⟩)⟩

/-- Every fetched item of a run sits strictly above the watermark the run
loaded. -/
theorem mainRun_fetched_gt (cfg : Config) (st : PersistState) (or : RunOracles) :
    ∀ f ∈ (mainRun cfg st or).fetched, wmOf st < f.id := by
  rcases mainRun_char cfg st or with ⟨h0, he⟩ | ⟨h0, hfe, he⟩ | ⟨h0, hfe, he⟩ <;>
    rw [he] <;> intro f hf
  · simp at hf
  · exact (fetch_new_feeds_spec (wmOf st) or.pages).1 f hf
  · exact (fetch_new_feeds_spec (wmOf st) or.pages).1 f hf

/-! ## Claim C1 — first-run protection -/

/-- C1 (counterexample): the claim says that on the never-run sentinel, if
items exist, the saved watermark equals the newest fetched item's id.  With
a source holding feeds 1–15 (so a fetch from watermark 0 would return 15
items, the newest being 15), the run fetches nothing, publishes nothing,
and saves the hardcoded baseline `42194` — not the newest item's id. -/
theorem c1_first_run_counterexample :
    wmOf st0 = 0 ∧
    (fetch_new_feeds 0 goodPages).1.map (·.id) = List.range' 1 15 ∧
    (mainRun cfg0 st0 orGood).fetched = [] ∧
    (mainRun cfg0 st0 orGood).published = [] ∧
    (mainRun cfg0 st0 orGood).state.lastIdFile = natToStr 42194 ∧
    (mainRun cfg0 st0 orGood).state.lastIdFile ≠ natToStr 15 := by
  decide

/-- C1 (amended): if the loaded watermark is the never-run sentinel
(missing/empty/unparseable file), the run publishes nothing — but it also
performs no fetch at all, and the saved watermark is the hardcoded baseline
id 42194, independent of the source's content. -/
theorem c1_first_run_amended (cfg : Config) (st : PersistState) (or : RunOracles)
    (h : wmOf st = 0) :
    (mainRun cfg st or).published = [] ∧
    (mainRun cfg st or).pubAttempts = [] ∧
    (mainRun cfg st or).fetched = [] ∧
    (mainRun cfg st or).state.lastIdFile = natToStr FIRST_RUN_TEST_ID ∧
    (mainRun cfg st or).state.hashesFile = st.hashesFile ∧
    (mainRun cfg st or).firstRun = true := by
  rcases mainRun_char cfg st or with ⟨h0, he⟩ | ⟨h0, -, -⟩ | ⟨h0, -, -⟩
  · rw [he]
    exact ⟨rfl, rfl, rfl, rfl, rfl, rfl⟩
  · exact absurd h h0
  · exact absurd h h0

/-- C1 (witness): the amended claim at the concrete never-run state. -/
theorem c1_first_run_witness :
    (mainRun cfg0 st0 orGood).published = [] ∧
    (mainRun cfg0 st0 orGood).state.lastIdFile = natToStr FIRST_RUN_TEST_ID := by
  have h := c1_first_run_amended cfg0 st0 orGood (by decide)
  exact ⟨h.1, h.2.2.2.1⟩

/-! ## Claim C2 — behaviour on publish failure -/

/-- C2 (counterexample): the claim says that when a publish attempt fails
for item X, the watermark is not advanced past X, X is not recorded in the
ledger, and an unchanged source re-offers X on the next run.  With only
feed 101 available and a transport that always fails, the run records the
failed attempt for 101, yet writes `101` to the ledger, saves watermark
101, and the next run over the same source fetches nothing — 101 is never
offered again. -/
theorem c2_publish_failure_counterexample :
    (mainRun cfg0 st100 orFail).pubAttempts = [(101, false)] ∧
    (mainRun cfg0 st100 orFail).published = [] ∧
    (mainRun cfg0 st100 orFail).state.lastIdFile = natToStr 101 ∧
    natToStr 101 ∈ (mainRun cfg0 st100 orFail).state.hashesFile ∧
    (mainRun cfg0 (mainRun cfg0 st100 orFail).state orFail).fetched = [] := by
  decide

/-- C2 (amended): the code implements policy variant B: by the time a
publish attempt (successful or not) for item X is made, X's id has already
been written to the ledger and the tracker advanced to X, so the saved
watermark is at least X and no subsequent run (over any source behaviour)
re-offers X. -/
theorem c2_publish_failure_amended (cfg : Config) (st : PersistState)
    (or : RunOracles) (X : Nat) (b : Bool)
    (hX : (X, b) ∈ (mainRun cfg st or).pubAttempts) :
    natToStr X ∈ (mainRun cfg st or).state.hashesFile ∧
    X ≤ wmOf (mainRun cfg st or).state ∧
    ∀ or2, ∀ f ∈ (mainRun cfg (mainRun cfg st or).state or2).fetched, X < f.id := by
  obtain ⟨-, -, hatt⟩ := mainRun_events cfg st or
  obtain ⟨hh, -, hm⟩ := hatt (X, b) hX
  refine ⟨hh, hm, ?_⟩
  intro or2 f hf
  have := mainRun_fetched_gt cfg (mainRun cfg st or).state or2 f hf
  omega

/-- C2 (witness): the amended claim at the concrete failing run. -/
theorem c2_publish_failure_witness :
    natToStr 101 ∈ (mainRun cfg0 st100 orFail).state.hashesFile ∧
    101 ≤ wmOf (mainRun cfg0 st100 orFail).state := by
  have h := c2_publish_failure_amended cfg0 st100 orFail 101 false (by decide)
  exact ⟨h.1, h.2.1⟩

/-! ## Claim C3 — watermark evolution -/

/-- The watermark values along a sequence of runs (loaded value first, then
the value after each run). -/
def wmTrace (cfg : Config) (st : PersistState) (ors : List RunOracles) : List Nat :=
  wmOf st :: (runSeq cfg st ors).map (fun r => wmOf r.state)

theorem wmTrace_cons (cfg : Config) (st : PersistState) (o : RunOracles)
    (rest : List RunOracles) :
    wmTrace cfg st (o :: rest)
      = wmOf st :: wmTrace cfg (mainRun cfg st o).state rest := by
  simp [wmTrace, runSeq]

/-- C3 (counterexample): the claim says the saved watermark equals the
maximum id over published-or-filter-rejected items (declined items do not
raise it).  With only feed 101 available and an AI call that always fails
(a `Declined` item), the run publishes nothing, rejects nothing (the ledger
stays empty, no publish attempt is made) — yet the watermark rises from 100
to 101. -/
theorem c3_watermark_counterexample :
    wmOf st100 = 100 ∧
    (mainRun cfg0 st100 orDecl).published = [] ∧
    (mainRun cfg0 st100 orDecl).pubAttempts = [] ∧
    (mainRun cfg0 st100 orDecl).state.hashesFile = [] ∧
    (mainRun cfg0 st100 orDecl).state.lastIdFile = natToStr 101 := by
  decide

/-- C3 (amended): the saved watermark is monotonically non-decreasing over
any sequence of runs, and after each processing run it equals the maximum
id over **all items offered to processing** (the first 12 fetched items) —
filter-rejected, AI-declined, published and publish-failed alike; a
sentinel run sets it to the hardcoded baseline, and a run that fetches
nothing leaves it unchanged. -/
theorem c3_watermark_amended (cfg : Config) (st : PersistState)
    (ors : List RunOracles) :
    List.Chain' (· ≤ ·) (wmTrace cfg st ors) ∧
    (∀ or, wmOf st = 0 → wmOf (mainRun cfg st or).state = FIRST_RUN_TEST_ID) ∧
    (∀ or, wmOf st ≠ 0 → (fetch_new_feeds (wmOf st) or.pages).1 ≠ [] →
      wmOf (mainRun cfg st or).state
        = (((fetch_new_feeds (wmOf st) or.pages).1.take MAX_FEEDS_PER_RUN).map
            (·.id)).foldr max 0) ∧
    (∀ or, wmOf st ≠ 0 → (fetch_new_feeds (wmOf st) or.pages).1 = [] →
      wmOf (mainRun cfg st or).state = wmOf st) := by
  refine ⟨?_, ?_, ?_, ?_⟩
  · induction ors generalizing st with
    | nil => simp [wmTrace, runSeq]
    | cons o rest ih =>
      have ht := ih (mainRun cfg st o).state
      rw [wmTrace_cons]
      unfold wmTrace at ht ⊢
      exact List.chain'_cons.mpr ⟨mainRun_wm_mono cfg st o, ht⟩
  · intro or h0
    rcases mainRun_char cfg st or with ⟨-, he⟩ | ⟨hne, -, -⟩ | ⟨hne, -, -⟩
    · rw [he]
      show pyParseIntOr0 (pyStrip (natToStr FIRST_RUN_TEST_ID)) = _
      exact load_roundtrip _
    · exact absurd h0 hne
    · exact absurd h0 hne
  · intro or h0 hfe
    rcases mainRun_char cfg st or with ⟨hz, -⟩ | ⟨-, hz, -⟩ | ⟨-, -, he⟩
    · exact absurd hz h0
    · exact absurd hz hfe
    · rw [he]
      show pyParseIntOr0 (pyStrip (savedLastIdFile cfg st or)) = _
      obtain ⟨f0, t0, hcons⟩ : ∃ f0 t0, (fetch_new_feeds (wmOf st) or.pages).1
          = f0 :: t0 := by
        cases hl : (fetch_new_feeds (wmOf st) or.pages).1 with
        | nil => exact absurd hl hfe
        | cons a b => exact ⟨a, b, rfl⟩
      have hgt := (fetch_new_feeds_spec (wmOf st) or.pages).1
      have hf0 : f0.id ∈ (((fetch_new_feeds (wmOf st) or.pages).1.take
          MAX_FEEDS_PER_RUN).map (·.id)) := by
        rw [hcons]
        show f0.id ∈ ((f0 :: t0.take 11).map (·.id))
        simp
      have hle0 := le_foldr_max hf0
      have hgt0 : wmOf st < f0.id := hgt f0 (by rw [hcons]; simp)
      have hmax : (loopStOf cfg st or).maxp
          = max (wmOf st) ((((fetch_new_feeds (wmOf st) or.pages).1.take
              MAX_FEEDS_PER_RUN).map (·.id)).foldr max 0) := by
        rw [loopStOf_maxp, foldl_max_eq]
      have hlt : wmOf st < (loopStOf cfg st or).maxp := by
        rw [hmax]; omega
      unfold savedLastIdFile
      rw [if_pos hlt, load_roundtrip, hmax]
      omega
  · intro or h0 hfe
    rcases mainRun_char cfg st or with ⟨hz, -⟩ | ⟨-, -, he⟩ | ⟨-, hz, -⟩
    · exact absurd hz h0
    · rw [he]
    · exact absurd hfe hz

/-- C3 (witness): the concrete declined-item run — the saved watermark is
101, the maximum offered id. -/
theorem c3_watermark_witness : wmOf (mainRun cfg0 st100 orDecl).state = 101 := by
  have h := (c3_watermark_amended cfg0 st100 []).2.2.1 orDecl (by decide) (by decide)
  rw [h]
  decide

/-! ## Claim C4 — dedupe key -/

theorem allPublished_cons (cfg : Config) (st : PersistState) (o : RunOracles)
    (rest : List RunOracles) :
    allPublished cfg st (o :: rest)
      = (mainRun cfg st o).published ++ allPublished cfg (mainRun cfg st o).state rest := by
  simp [allPublished, runSeq]

/-- Everything ever published over a run sequence sits strictly above the
initial watermark. -/
theorem allPublished_gt (cfg : Config) :
    ∀ (ors : List RunOracles) (st : PersistState),
    ∀ p ∈ allPublished cfg st ors, wmOf st < p.id := by
  intro ors
  induction ors with
  | nil => intro st p hp; simp [allPublished, runSeq] at hp
  | cons o rest ih =>
    intro st p hp
    rw [allPublished_cons] at hp
    rcases List.mem_append.mp hp with h | h
    · exact ((mainRun_events cfg st o).1 p h).1
    · have h1 := ih (mainRun cfg st o).state p h
      have h2 := mainRun_wm_mono cfg st o
      omega

/-- C4 (counterexample): the claim says no two published items share a
content fingerprint (equal normalized text ⇒ published at most once, even
under different ids).  With feeds 101 and 102 carrying literally identical
`rawText`, one run publishes both. -/
theorem c4_dedupe_counterexample :
    (mainRun cfg0 st100 orBoth).published.map (·.id) = [101, 102] ∧
    (mainRun cfg0 st100 orBoth).published.map (·.content) = [cGood, cGood] := by
  decide

/-- C4 (amended): the ledger key is `str(feed['id'])`, not a content
digest; what the ledger-before-publish discipline guarantees is that no two
successfully published items (across any sequence of runs) share an **id**.
Items with identical text under different ids are not deduplicated. -/
theorem c4_dedupe_amended (cfg : Config) (st : PersistState)
    (ors : List RunOracles) :
    List.Pairwise (fun a b : PubRec => a.id ≠ b.id) (allPublished cfg st ors) := by
  induction ors generalizing st with
  | nil => simp [allPublished, runSeq]
  | cons o rest ih =>
    rw [allPublished_cons]
    rw [List.pairwise_append]
    refine ⟨?_, ih (mainRun cfg st o).state, ?_⟩
    · exact ((mainRun_events cfg st o).2.1).imp (fun h => by omega)
    · intro p hp q hq
      have hple : p.id ≤ wmOf (mainRun cfg st o).state :=
        ((mainRun_events cfg st o).1 p hp).2
      have hqgt : wmOf (mainRun cfg st o).state < q.id :=
        allPublished_gt cfg rest (mainRun cfg st o).state q hq
      omega

/-! ## Claim C9 — items beyond the per-run cap are not skipped -/

/-- C9: when the fetcher returns more than `MAX_FEEDS_PER_RUN = 12` items,
the saved watermark stays strictly below the id of every
fetched-but-unprocessed item (index 12 and beyond), so the next run's fetch
window — which starts right above the saved watermark — still covers
them. -/
theorem c9_cap_no_skip (cfg : Config) (st : PersistState) (or : RunOracles)
    (h12 : MAX_FEEDS_PER_RUN < (mainRun cfg st or).fetched.length) :
    ∀ f ∈ (mainRun cfg st or).fetched.drop MAX_FEEDS_PER_RUN,
      wmOf (mainRun cfg st or).state < f.id := by
  rcases mainRun_char cfg st or with ⟨h0, he⟩ | ⟨h0, hfe, he⟩ | ⟨h0, hfe, he⟩
  · rw [he] at h12
    simp [MAX_FEEDS_PER_RUN] at h12
  · rw [he] at h12
    simp [hfe, MAX_FEEDS_PER_RUN] at h12
  · have hproj_f : (mainRun cfg st or).fetched
        = (fetch_new_feeds (wmOf st) or.pages).1 := by rw [he]
    have hproj_s : (mainRun cfg st or).state.lastIdFile = savedLastIdFile cfg st or := by
      rw [he]
    intro f hf
    rw [hproj_f] at hf
    obtain ⟨hgt, -, hpairF, -, -⟩ := fetch_new_feeds_spec (wmOf st) or.pages
    have hfmem : f ∈ (fetch_new_feeds (wmOf st) or.pages).1 :=
      List.drop_subset _ _ hf
    have hfgt : wmOf st < f.id := hgt f hfmem
    have hcross : ∀ g ∈ (fetch_new_feeds (wmOf st) or.pages).1.take MAX_FEEDS_PER_RUN,
        g.id < f.id := by
      have hsplit := List.take_append_drop MAX_FEEDS_PER_RUN
        (fetch_new_feeds (wmOf st) or.pages).1
      have hpair2 : List.Pairwise (fun a b : Feed => a.id < b.id)
          ((fetch_new_feeds (wmOf st) or.pages).1.take MAX_FEEDS_PER_RUN ++
            (fetch_new_feeds (wmOf st) or.pages).1.drop MAX_FEEDS_PER_RUN) := by
        rw [hsplit]; exact hpairF
      exact fun g hg => (List.pairwise_append.mp hpair2).2.2 g hg f hf
    have hfold : (((fetch_new_feeds (wmOf st) or.pages).1.take
        MAX_FEEDS_PER_RUN).map (·.id)).foldr max 0 < f.id := by
      refine foldr_max_lt ?_ (by omega)
      intro x hx
      obtain ⟨g, hg, hgx⟩ := List.mem_map.mp hx
      rw [← hgx]
      exact hcross g hg
    have hmaxp : (loopStOf cfg st or).maxp < f.id := by
      rw [loopStOf_maxp, foldl_max_eq]
      omega
    show wmOf (mainRun cfg st or).state < f.id
    unfold wmOf
    rw [hproj_s]
    unfold savedLastIdFile
    split_ifs with hlt
    · rw [load_roundtrip]
      omega
    · show pyParseIntOr0 (pyStrip st.lastIdFile) < f.id
      have : wmOf st = pyParseIntOr0 (pyStrip st.lastIdFile) := rfl
      omega

/-- C9 (witness): with 15 items fetched above watermark 100, the saved
watermark (112, the highest processed id) stays below unprocessed item
113. -/
theorem c9_cap_no_skip_witness :
    wmOf (mainRun cfg0 st100 orGood).state < 113 ∧
    (113 : Nat) ∈ ((mainRun cfg0 st100 orGood).fetched.drop
      MAX_FEEDS_PER_RUN).map (·.id) := by
  constructor
  · have h := c9_cap_no_skip cfg0 st100 orGood (by decide)
    have hm : (⟨113, tGood, [], cGood⟩ : Feed)
        ∈ (mainRun cfg0 st100 orGood).fetched.drop MAX_FEEDS_PER_RUN := by decide
    exact h _ hm
  · decide

/-! ## Claim C7 — transformer contract -/

/-- With every attempt raising, the retry loop exhausts all three attempts,
sleeping 1 then 2 seconds, and yields `None`. -/
theorem aiAttemptLoop_all_raise (jp : Str → JsonParseRes) (oracle : Nat → ApiOutcome)
    (h : ∀ a, oracle a = .raiseExc) :
    aiAttemptLoop jp oracle [0, 1, 2] = (none, 3, [1, 2]) := by
  simp [aiAttemptLoop, h]

/-- A first attempt whose reply resolves to `done r` ends the loop with `r`
after one attempt and no sleep. -/
theorem aiAttemptLoop_first_done (jp : Str → JsonParseRes) (oracle : Nat → ApiOutcome)
    (raw : Str) (r : Option Post) (h0 : oracle 0 = .respond raw)
    (hs : attemptStep jp raw = .done r) :
    aiAttemptLoop jp oracle [0, 1, 2] = (r, 1, []) := by
  simp [aiAttemptLoop, h0, hs]

/-- C7: `process_with_ai` (i) truncates oversized input to 2000 characters
before the model sees it (the content sent is a prefix of the input of
length at most 2000, and equals the input when that is short enough),
(ii) makes at most 3 attempts with exponential backoff (the sleep trace is
a prefix of `[2^0, 2^1]`), (iii) never yields a result below the
20-character plausibility threshold (or above the 400-character cap),
(iv) returns the `Declined` sentinel `None` — it cannot raise, being a
total function into `Option` — after exhausting retries, and (v) returns
`None` when the model's parsed reply signals `SKIP` or is below the
threshold. -/
theorem c7_transformer_contract (content title : Str) (jp : Str → JsonParseRes)
    (api : Str → Nat → ApiOutcome) :
    (process_with_ai content title jp api).contentSent.length ≤ 2000 ∧
    (process_with_ai content title jp api).contentSent <+: content ∧
    (content.length ≤ 2000 →
      (process_with_ai content title jp api).contentSent = content) ∧
    (process_with_ai content title jp api).attempts ≤ 3 ∧
    (process_with_ai content title jp api).sleeps <+: [1, 2] ∧
    (∀ p, (process_with_ai content title jp api).result = some p →
      20 ≤ p.text.length ∧ p.text.length ≤ 400) ∧
    ((∀ a, api (process_with_ai content title jp api).contentSent a = .raiseExc) →
      (process_with_ai content title jp api).result = none ∧
      (process_with_ai content title jp api).attempts = 3 ∧
      (process_with_ai content title jp api).sleeps = [1, 2]) ∧
    (∀ raw tf sf, api (process_with_ai content title jp api).contentSent 0
        = .respond raw →
      jp (defenceRaw fenceStr jsonTagStr (pyStrip raw)) = .val (.obj (.jstr tf) (.jstr sf)) →
      (pyStrip tf = skipStr ∨ (pyStrip tf).length < 20) →
      (process_with_ai content title jp api).result = none) := by
  have hsent : (process_with_ai content title jp api).contentSent
      = (if 2000 < content.length then content.take 2000 else content) := rfl
  have hloop : ∀ pr : AiTrace, pr = process_with_ai content title jp api →
      pr.result = (aiAttemptLoop jp
        (api (process_with_ai content title jp api).contentSent) [0, 1, 2]).1 ∧
      pr.attempts = (aiAttemptLoop jp
        (api (process_with_ai content title jp api).contentSent) [0, 1, 2]).2.1 ∧
      pr.sleeps = (aiAttemptLoop jp
        (api (process_with_ai content title jp api).contentSent) [0, 1, 2]).2.2 := by
    intro pr hpr
    subst hpr
    exact ⟨rfl, rfl, rfl⟩
  obtain ⟨hres, hatt, hsl⟩ := hloop _ rfl
  obtain ⟨hn, hpr, hbounds⟩ := aiAttemptLoop_cases jp
    (api (process_with_ai content title jp api).contentSent)
  refine ⟨?_, ?_, ?_, ?_, ?_, ?_, ?_, ?_⟩
  · rw [hsent]
    split_ifs with h
    · simp
    · simpa using le_of_not_lt (by omega)
  · rw [hsent]
    split_ifs
    · exact List.take_prefix _ _
    · exact List.prefix_refl _
  · intro hle
    rw [hsent, if_neg (by omega)]
  · rw [hatt]; exact hn
  · rw [hsl]; exact hpr
  · intro p hp
    rw [hres] at hp
    exact hbounds p hp
  · intro hall
    rw [hres, hatt, hsl, aiAttemptLoop_all_raise jp _ hall]
    exact ⟨rfl, rfl, rfl⟩
  · intro raw tf sf h0 hjp hskip
    have hstep : attemptStep jp raw = .done none := by
      have hred : attemptStep jp raw = postCheck (pyStrip tf) (pyStrip sf) := by
        unfold attemptStep
        rw [hjp]
        exact rfl
      rw [hred]
      unfold postCheck
      rw [if_pos hskip]
    rw [hres, aiAttemptLoop_first_done jp _ raw none h0 hstep]

/-- C7 (witness): with a model call that always raises, the concrete run
declines after 3 attempts with backoff sleeps `[1, 2]`. -/
theorem c7_transformer_witness :
    (process_with_ai cGood tGood jp0 (apiErr 0)).result = none ∧
    (process_with_ai cGood tGood jp0 (apiErr 0)).attempts = 3 ∧
    (process_with_ai cGood tGood jp0 (apiErr 0)).sleeps = [1, 2] :=
  (c7_transformer_contract cGood tGood jp0 (apiErr 0)).2.2.2.2.2.2.1 (fun _ => rfl)

/-! ## Claim C8 — error notifications -/

/-- C8 (counterexample): the claim says error notifications go to a
**distinct** administrative destination and never to the main chat.  With
`ADMIN_CHAT_ID` unset — its default per line 21 — the error notification
goes exactly to the main destination chat. -/
theorem c8_admin_notify_counterexample :
    cfgDefault.adminChatIdEnv = none ∧
    (notify_error cfgDefault [] (tgOK 0)).chatId = cfgDefault.targetChatId := by
  decide

/-- C8 (amended): `notify_error` always sends to `ADMIN_CHAT_ID` — which is
a distinct administrative destination only when the `ADMIN_CHAT_ID`
environment variable is set, and otherwise **defaults to the main
destination chat** — and it never raises: it is total over every transport
outcome, returning normally (with `delivered = false`) even when every
underlying post attempt raises. -/
theorem c8_admin_notify_amended (cfg : Config) (msg : Str)
    (transport : Nat → TgOutcome) :
    (notify_error cfg msg transport).chatId = adminChatId cfg ∧
    (∀ a, cfg.adminChatIdEnv = some a → (notify_error cfg msg transport).chatId = a) ∧
    (cfg.adminChatIdEnv = none →
      (notify_error cfg msg transport).chatId = cfg.targetChatId) ∧
    ((∀ a, transport a = .exc) → (notify_error cfg msg transport).delivered = false) := by
  refine ⟨rfl, ?_, ?_, ?_⟩
  · intro a ha
    show adminChatId cfg = a
    unfold adminChatId
    rw [ha]
    rfl
  · intro ha
    show adminChatId cfg = cfg.targetChatId
    unfold adminChatId
    rw [ha]
    rfl
  · intro hall
    show tgAttemptLoop transport [0, 1, 2] = false
    simp [tgAttemptLoop, hall]

/-- C8 (witness): with a configured admin chat the notification goes there;
with an all-raising transport the notifier still returns normally. -/
theorem c8_admin_notify_witness :
    (notify_error cfg0 [] (tgOK 0)).chatId = ['A'] ∧
    (notify_error cfg0 [] (tgFail 0)).delivered = false :=
  ⟨(c8_admin_notify_amended cfg0 [] (tgOK 0)).2.1 ['A'] rfl,
    (c8_admin_notify_amended cfg0 [] (tgFail 0)).2.2.2 (fun _ => rfl)⟩

/-! ## Claim C6 — message length cap and footer preservation -/

theorem length_joinSpace_take3 {l : List Str} (h : ∀ x ∈ l, x.length ≤ 10) :
    (joinSpace (l.take 3)).length ≤ 32 := by
  match l with
  | [] => simp [joinSpace]
  | [a] =>
    have := h a (by simp)
    simp only [List.take, joinSpace]
    omega
  | [a, b] =>
    have ha := h a (by simp)
    have hb := h b (by simp)
    simp only [List.take, joinSpace, List.length_append, List.length_cons]
    omega
  | a :: b :: c :: rest =>
    have ha := h a (by simp)
    have hb := h b (by simp)
    have hc := h c (by simp)
    show (joinSpace [a, b, c]).length ≤ 32
    simp only [joinSpace, List.length_append, List.length_cons]
    omega

theorem rawHashtagList_elem_le (t : Str) : ∀ x ∈ rawHashtagList t, x.length ≤ 10 := by
  have hite : ∀ (x : Str) (c : Prop) (inst : Decidable c) (a : Str),
      (x ∈ if c then [a] else ([] : List Str)) → x = a := by
    intro x c inst a h
    split at h
    · simpa using h
    · simp at h
  intro x hx
  simp only [rawHashtagList, List.mem_append] at hx
  rcases hx with ((((((((hx | hx) | hx) | hx) | hx) | hx) | hx) | hx) | hx) <;>
    (rw [hite x _ _ _ hx]; decide)

theorem hashtagList_elem_le (t : Str) : ∀ x ∈ hashtagList t, x.length ≤ 10 := by
  intro x hx
  unfold hashtagList at hx
  split at hx
  · simp at hx
    subst hx
    decide
  · exact rawHashtagList_elem_le t x hx

theorem get_hashtags_len_le (t : Str) : (get_hashtags_from_title t).length ≤ 32 :=
  length_joinSpace_take3 (hashtagList_elem_le t)

theorem emoji_len_le (s : Str) : (get_emoji_for_sentiment s).length ≤ 2 := by
  simp only [get_emoji_for_sentiment]
  split_ifs <;> decide

theorem msgFooter_len (s : Str) : (msgFooter s).length = 11 + s.length := by
  simp [msgFooter]
  omega

theorem msgHeader_len {H E : Str} {t1 : Option Str} (hH : H.length ≤ 32)
    (hE : E.length ≤ 2) (ht1 : ∀ t, t1 = some t → t.length ≤ 203) :
    (msgHeader H E t1).length ≤ 242 := by
  cases t1 with
  | none =>
    unfold msgHeader
    split_ifs <;>
      simp only [List.length_append, List.length_cons, List.length_nil, nl2] <;>
      omega
  | some t =>
    have ht := ht1 t rfl
    unfold msgHeader
    split_ifs <;>
      simp only [List.length_append, List.length_cons, List.length_nil, nl2] <;>
      omega

theorem pySlice_len_nonneg (s : Str) (n : Int) (h : 0 ≤ n) :
    (pySlice s n).length = min s.length n.toNat := by
  simp [pySlice, h, Nat.min_comm]

theorem finalClamp_len (m : Str) : (finalClamp m).length ≤ 4096 := by
  unfold finalClamp
  split_ifs with h
  · simp only [List.length_append, List.length_take, dots3, List.length_cons,
      List.length_nil]
    omega
  · omega

theorem finalClamp_of_le {m : Str} (h : m.length ≤ 4096) : finalClamp m = m := by
  unfold finalClamp
  rw [if_neg (by omega)]

/-- The posted message of a non-error send is the clamped assembly. -/
theorem send_message_eq (cfg : Config) (post : Post) (titleOpt : Option Str)
    (transport : Nat → TgOutcome) :
    (send_to_telegram cfg (.postMsg post titleOpt) transport).message
      = finalClamp (assembleMsg post titleOpt) := rfl

/-- The truncation body keeps the message within 4096 characters and ends
with the intact footer, provided header and footer leave a positive text
budget. -/
theorem truncBody_spec {H E : Str} {t1 : Option Str} {F text : Str}
    (hH : H.length ≤ 32) (hE : E.length ≤ 2)
    (ht1 : ∀ t, t1 = some t → t.length ≤ 203)
    (hF : F.length ≤ 3711) :
    (truncBody H E t1 F text).length ≤ 4096 ∧ F <:+ truncBody H E t1 F text := by
  have hhdr : (msgHeader H E t1).length ≤ 242 := msgHeader_len hH hE ht1
  by_cases h1 : (msgHeader H E t1 ++ text ++ F).length ≤ 4096
  · rw [truncBody, if_pos h1]
    exact ⟨h1, ⟨msgHeader H E t1 ++ text, by simp⟩⟩
  · have hmtl : (100 : Int) < 4096 - (msgHeader H E t1).length - F.length - 3 := by
      omega
    rw [truncBody, if_neg h1, if_pos hmtl]
    constructor
    · have hsl := pySlice_len_nonneg text
        (4096 - (msgHeader H E t1).length - F.length - 3) (by omega)
      simp only [List.length_append, hsl, dots3, List.length_cons, List.length_nil]
      have htn : ((4096 - (msgHeader H E t1).length - F.length - 3 : Int)).toNat
          = 4096 - (msgHeader H E t1).length - F.length - 3 := by
        omega
      omega
    · exact ⟨msgHeader H E t1
        ++ (pySlice text (4096 - (msgHeader H E t1).length - F.length - 3 : Int)
          ++ dots3), by simp⟩

/-- C6: every non-error message handed to the transport is at most 4096
characters; and as long as the sentiment tag is of sane size (at most 3700
characters — every legitimate tag is under 20), a message that had to be
truncated still ends with the complete `"\n\nContext: " + sentiment`
footer. -/
theorem c6_truncation_amended (cfg : Config) (post : Post) (titleOpt : Option Str)
    (transport : Nat → TgOutcome) :
    (send_to_telegram cfg (.postMsg post titleOpt) transport).message.length ≤ 4096 ∧
    (post.sentiment.length ≤ 3700 →
      msgFooter post.sentiment <:+
        (send_to_telegram cfg (.postMsg post titleOpt) transport).message) := by
  have hmsg : (send_to_telegram cfg (.postMsg post titleOpt) transport).message
      = finalClamp (assembleMsg post titleOpt) := rfl
  constructor
  · rw [hmsg]
    exact finalClamp_len _
  · intro hsent
    have hH : (hashtagsOpt (normTitleOpt titleOpt)).length ≤ 32 := by
      cases hn : normTitleOpt titleOpt with
      | none => simp [hashtagsOpt]
      | some t => simpa [hashtagsOpt] using get_hashtags_len_le t
    have hE := emoji_len_le post.sentiment
    have ht1 : ∀ t, clampTitle200 (normTitleOpt titleOpt) = some t → t.length ≤ 203 := by
      intro t ht
      cases hn : normTitleOpt titleOpt with
      | none => rw [hn] at ht; simp [clampTitle200] at ht
      | some u =>
        rw [hn] at ht
        simp only [clampTitle200, Option.some.injEq] at ht
        rw [← ht]
        split_ifs with hu
        · simp only [List.length_append, List.length_take, dots3, List.length_cons,
            List.length_nil]
          omega
        · omega
    have hF : (msgFooter post.sentiment).length ≤ 3711 := by
      rw [msgFooter_len]
      omega
    obtain ⟨hlen, hsuf⟩ := @truncBody_spec (hashtagsOpt (normTitleOpt titleOpt))
      (get_emoji_for_sentiment post.sentiment) (clampTitle200 (normTitleOpt titleOpt))
      (msgFooter post.sentiment) post.text hH hE ht1 hF
    rw [hmsg]
    show msgFooter post.sentiment <:+ finalClamp (assembleMsg post titleOpt)
    rw [show assembleMsg post titleOpt = truncBody (hashtagsOpt (normTitleOpt titleOpt))
      (get_emoji_for_sentiment post.sentiment) (clampTitle200 (normTitleOpt titleOpt))
      (msgFooter post.sentiment) post.text from rfl]
    rw [finalClamp_of_le hlen]
    exact hsuf

/-- A 4200-character sentiment tag (an adversarial model output; the code
never bounds the parsed `sentiment` field). -/
def sBig : Str := List.replicate 4200 'x'

/-- A 200-character analysis text. -/
def tB2 : Str := List.replicate 200 'b'

/-- A needle whose first character differs from `c` never occurs in
`replicate k c`. -/
theorem containsSub_replicate_ne (k : Nat) (c : Char) (needle : Str)
    (hne : needle.head? ≠ some c) (hnil : needle ≠ []) :
    containsSub (List.replicate k c) needle = false := by
  obtain ⟨d, rest, hd⟩ : ∃ d rest, needle = d :: rest := by
    cases needle with
    | nil => exact absurd rfl hnil
    | cons d rest => exact ⟨d, rest, rfl⟩
  subst hd
  have hdc : (d == c) = false := by
    simp only [List.head?_cons, ne_eq, Option.some.injEq] at hne
    simp [hne]
  induction k with
  | zero => simp [containsSub, List.isPrefixOf]
  | succ k ih =>
    rw [List.replicate_succ]
    show ((d :: rest).isPrefixOf (c :: List.replicate k c)
      || containsSub (List.replicate k c) (d :: rest)) = false
    rw [ih]
    simp [List.isPrefixOf, hdc]

/-- The sentiment-classification scan finds none of its keywords in the
adversarial tag, so the default 📰 emoji is used. -/
theorem emoji_sBig : get_emoji_for_sentiment sBig = emojiNews := by
  have hlow : pyLower sBig = List.replicate 4200 'x' := by
    show (List.replicate 4200 'x').map Char.toLower = _
    rw [List.map_replicate]
    rfl
  simp only [get_emoji_for_sentiment, hlow]
  rw [containsSub_replicate_ne 4200 'x' _ (by decide) (by decide),
    containsSub_replicate_ne 4200 'x' _ (by decide) (by decide),
    containsSub_replicate_ne 4200 'x' _ (by decide) (by decide),
    containsSub_replicate_ne 4200 'x' _ (by decide) (by decide)]
  simp

/-- C6 (counterexample): the claim says every truncated message still ends
with the complete footer.  With a 4200-character sentiment the footer
itself exceeds the cap: the assembled message (4296 characters after the
title-shrinking branch) is cut by the final hard clamp to 4093 characters,
which no longer ends with the 4211-character footer. -/
theorem c6_truncation_counterexample :
    4096 < (assembleMsg ⟨tB2, sBig⟩ (some tGood)).length ∧
    (send_to_telegram cfg0 (.postMsg ⟨tB2, sBig⟩ (some tGood)) (tgOK 0)).message.length
      = 4093 ∧
    ¬ (msgFooter sBig <:+
        (send_to_telegram cfg0 (.postMsg ⟨tB2, sBig⟩ (some tGood)) (tgOK 0)).message) := by
  have hA : assembleMsg ⟨tB2, sBig⟩ (some tGood)
      = truncBody (("#Markets").data) emojiNews (some tGood) (msgFooter sBig) tB2 := by
    show truncBody (hashtagsOpt (normTitleOpt (some tGood)))
      (get_emoji_for_sentiment sBig) (clampTitle200 (normTitleOpt (some tGood)))
      (msgFooter sBig) tB2 = _
    rw [emoji_sBig,
      show hashtagsOpt (normTitleOpt (some tGood)) = ("#Markets").data by decide,
      show clampTitle200 (normTitleOpt (some tGood)) = some tGood by decide]
  have hsBigLen : sBig.length = 4200 := by
    rw [show sBig = List.replicate 4200 'x' from rfl, List.length_replicate]
  have hFlen : (msgFooter sBig).length = 4211 := by
    rw [msgFooter_len, hsBigLen]
  have hhdr1 : (msgHeader (("#Markets").data) emojiNews (some tGood)).length = 15 := by
    decide
  have htB2 : tB2.length = 200 := by
    rw [show tB2 = List.replicate 200 'b' from rfl, List.length_replicate]
  have hcond1 : ¬ (msgHeader (("#Markets").data) emojiNews (some tGood) ++ tB2
      ++ msgFooter sBig).length ≤ 4096 := by
    simp only [List.length_append, hhdr1, hFlen, htB2]
    omega
  have hcond2 : ¬ (100 : Int) < 4096
      - (msgHeader (("#Markets").data) emojiNews (some tGood)).length
      - (msgFooter sBig).length - 3 := by
    rw [hhdr1, hFlen]
    norm_num
  have hhdr2 : (msgHeader (("#Markets").data) emojiNews
      (clampTitle100 (some tGood))).length = 18 := by decide
  have hB : truncBody (("#Markets").data) emojiNews (some tGood) (msgFooter sBig) tB2
      = msgHeader (("#Markets").data) emojiNews (clampTitle100 (some tGood))
        ++ (pySlice tB2 (4096 - (msgHeader (("#Markets").data) emojiNews
              (clampTitle100 (some tGood))).length - (msgFooter sBig).length - 3 : Int)
            ++ dots3)
        ++ msgFooter sBig := by
    rw [truncBody, if_neg hcond1, if_neg hcond2]
  have hB2 : truncBody (("#Markets").data) emojiNews (some tGood) (msgFooter sBig) tB2
      = msgHeader (("#Markets").data) emojiNews (clampTitle100 (some tGood))
        ++ (pySlice tB2 (-136 : Int) ++ dots3) ++ msgFooter sBig := by
    rw [hB, hhdr2, hFlen]
    norm_num
  have hslice : (pySlice tB2 (-136 : Int)).length = 64 := by decide
  have hAlen : (assembleMsg ⟨tB2, sBig⟩ (some tGood)).length = 4296 := by
    rw [hA, hB2]
    simp only [List.length_append, hhdr2, hslice, hFlen, dots3, List.length_cons,
      List.length_nil]
  have hmsg : (send_to_telegram cfg0 (.postMsg ⟨tB2, sBig⟩ (some tGood)) (tgOK 0)).message
      = finalClamp (assembleMsg ⟨tB2, sBig⟩ (some tGood)) :=
    send_message_eq cfg0 ⟨tB2, sBig⟩ (some tGood) (tgOK 0)
  have hclamp : (finalClamp (assembleMsg ⟨tB2, sBig⟩ (some tGood))).length = 4093 := by
    unfold finalClamp
    rw [if_pos (by rw [hAlen]; omega)]
    simp only [List.length_append, List.length_take, hAlen, dots3, List.length_cons,
      List.length_nil]
    omega
  refine ⟨by rw [hAlen]; omega, by rw [hmsg, hclamp], ?_⟩
  intro hs
  have hle := hs.length_le
  rw [hmsg, hclamp, hFlen] at hle
  omega

/-- C6 (witness): the amended claim at a concrete post. -/
theorem c6_truncation_witness :
    (send_to_telegram cfg0 (.postMsg ⟨tB, neutralStr⟩ (some tGood)) (tgOK 0)).message.length
      ≤ 4096 ∧
    msgFooter neutralStr <:+
      (send_to_telegram cfg0 (.postMsg ⟨tB, neutralStr⟩ (some tGood)) (tgOK 0)).message :=
  ⟨(c6_truncation_amended cfg0 ⟨tB, neutralStr⟩ (some tGood) (tgOK 0)).1,
    (c6_truncation_amended cfg0 ⟨tB, neutralStr⟩ (some tGood) (tgOK 0)).2 (by decide)⟩

end Radar
